import Mathlib

/-!
Verification of the WebIC-Trainer digital-logic simulation kernel.

The development shallowly embeds the kernel's JavaScript source:
* `src/js/simulation.js` — four-valued states, `Node.resolve`, `Node.update`,
  `CircuitEngine.schedule` / `step` / `mergeNodes`;
* `src/js/ttl-chip.js` — `TTLChip.getInputState`, `TTLChip.propagate`;
* `src/js/ic-implementations.js` — the chip evaluators (LS00, LS74, LS76,
  LS90, LS93, LS138, LS283);
* `src/js/wiring-engine.js` — `WiringManager.validateWire` / `addWire` /
  `mergeNets` and the flood-fill over the adjacency graph.

JavaScript `Map`s are modelled as association lists, `Set`s as duplicate-free
lists in insertion order, and closures by the data they observe.  The
stack-based flood fill and the event-queue drain are given explicit fuel or
a termination measure; the fuel is chosen large enough, and its sufficiency
is proved.
-/

/-- The four electrical states of `simulation.js`
(`STATE_LOW = 0`, `STATE_HIGH = 1`, `STATE_FLOAT = 2`, `STATE_ERROR = 3`). -/
inductive St where
  | low
  | high
  | float
  | error
deriving DecidableEq, Repr

/-- `Node.resolve` from `simulation.js`: iterate over the driver values
setting `hasError` / `hasHigh` / `hasLow` flags, then
`ERROR` on contention, else `HIGH`, else `LOW`, else `FLOAT`. -/
def resolve (vals : List St) : St :=
  let hasError := vals.any fun v => v = St.error
  let hasHigh := vals.any fun v => v = St.high
  let hasLow := vals.any fun v => v = St.low
  if hasError || (hasHigh && hasLow) then St.error
  else if hasHigh then St.high
  else if hasLow then St.low
  else St.float

/-- Association-list lookup, modelling JavaScript `Map.get` (`undefined`
becomes `none`). -/
def lookupA {α : Type} [DecidableEq α] {β : Type} (l : List (α × β)) (k : α) :
    Option β :=
  match l with
  | [] => none
  | (k', v) :: rest => if k = k' then some v else lookupA rest k

/-- Association-list update, modelling JavaScript `Map.set`. -/
def setA {α : Type} [DecidableEq α] {β : Type} (l : List (α × β)) (k : α)
    (v : β) : List (α × β) :=
  match l with
  | [] => [(k, v)]
  | (k', v') :: rest =>
    if k = k' then (k, v) :: rest else (k', v') :: setA rest k v

/-- A node of `simulation.js`.  Driver closures are modelled by opaque
driver identifiers (their values are supplied by an environment), listener
closures by listener identifiers. -/
structure NodeM where
  state : St
  drivers : List Nat
  listeners : List Nat
deriving DecidableEq, Repr

/-- JavaScript `Set.add`: append when absent, in insertion order. -/
def addUniq (l : List Nat) (x : Nat) : List Nat :=
  if x ∈ l then l else l ++ [x]

/-- `Node.update` from `simulation.js`: recompute `resolve` over the driver
values; if it differs from the cached state, store it and invoke every
listener with the new state.  Returns the updated node, the listener
invocations `(listener, state)` in order, and the changed flag. -/
def nodeUpdate (env : Nat → St) (n : NodeM) :
    NodeM × List (Nat × St) × Bool :=
  let newState := resolve (n.drivers.map env)
  if newState ≠ n.state then
    ({ n with state := newState }, n.listeners.map fun l => (l, newState),
      true)
  else (n, [], false)

/-- The engine's node map (`CircuitEngine.nodes`).  `mergeNodes` touches no
other engine field, so only the map is carried. -/
structure EngineM where
  nodes : List (String × NodeM)
deriving DecidableEq, Repr

/-- `CircuitEngine.mergeNodes` from `simulation.js`: identical ids or a
missing node are early returns; otherwise move `nodeB`'s drivers and
listeners into `nodeA` (set union, insertion order), delete `nodeB`, and
synchronously run `nodeA.update()`.  Returns the engine, the listener
invocations performed by that update, and the surviving id. -/
def mergeNodes (env : Nat → St) (st : EngineM) (nodeAId nodeBId : String) :
    EngineM × List (Nat × St) × Option String :=
  if nodeAId = nodeBId then (st, [], none)
  else
    match lookupA st.nodes nodeAId, lookupA st.nodes nodeBId with
    | some nodeA, some nodeB =>
      let moved : NodeM :=
        { nodeA with
          drivers := nodeB.drivers.foldl addUniq nodeA.drivers,
          listeners := nodeB.listeners.foldl addUniq nodeA.listeners }
      let withoutB := (setA st.nodes nodeAId moved).filter
        fun p => p.1 ≠ nodeBId
      let (updated, calls, _) := nodeUpdate env moved
      ({ nodes := setA withoutB nodeAId updated }, calls, some nodeAId)
    | _, _ => (st, [], none)

/-- The chip-side driver function installed by `TTLChip.registerDrivers`:
`() => isPowered() ? (outputStates.get(pin) ?? FLOAT) : FLOAT`. -/
def chipDriver (powered : Bool) (reg : Option St) : St :=
  if powered then reg.getD St.float else St.float

/-- An output pin's net as seen by `TTLChip.propagate`: the cached state,
the values currently returned by the other drivers on the net, and the
listener identifiers. -/
structure PNode where
  state : St
  extra : List St
  listeners : List Nat
deriving DecidableEq, Repr

/-- A chip in the middle of `TTLChip.propagate`: the result of
`isPowered()`, the `outputStates` register, and the bound output nets. -/
structure PropChip where
  powered : Bool
  outputStates : List (Nat × St)
  pinNodes : List (Nat × PNode)
deriving DecidableEq, Repr

/-- The resolution of an output pin's net: the chip's own driver plus the
other drivers present on the net. -/
def resolveOut (c : PropChip) (pin : Nat) (n : PNode) : St :=
  resolve (chipDriver c.powered (lookupA c.outputStates pin) :: n.extra)

/-- One iteration of the `updates.forEach` loop in `TTLChip.propagate`
(`ttl-chip.js`): if the proposal differs from the output register, store it
and synchronously run `node.update()`; when the node state did not change,
force-notify every listener with the freshly resolved state.  Returns the
chip and the listener invocations.  No event is scheduled. -/
def propagateOne (c : PropChip) (upd : Nat × St) :
    PropChip × List (Nat × St) :=
  let (pin, state) := upd
  let currentState := lookupA c.outputStates pin
  if currentState ≠ some state then
    let c' := { c with outputStates := setA c.outputStates pin state }
    match lookupA c.pinNodes pin with
    | none => (c', [])
    | some node =>
      let newState := resolveOut c' pin node
      if newState ≠ node.state then
        let node' : PNode := { node with state := newState }
        ({ c' with pinNodes := setA c'.pinNodes pin node' },
          node.listeners.map fun l => (l, newState))
      else
        (c', node.listeners.map fun l => (l, newState))
  else (c, [])

/-- `TTLChip.propagate`: fold `propagateOne` over the proposals,
concatenating the listener invocations. -/
def propagate (c : PropChip) (updates : List (Nat × St)) :
    PropChip × List (Nat × St) :=
  updates.foldl
    (fun acc upd =>
      let (c', calls) := propagateOne acc.1 upd
      (c', acc.2 ++ calls))
    (c, [])

/-- `TTLChip.getInputState` (`ttl-chip.js`): an unbound pin reads FLOAT
("physically disconnected"); a bound net's FLOAT is coerced to HIGH (TTL
floating-input behaviour); every other state passes through.  `pins` maps a
pin number to the state of its bound net, or `none` when unbound. -/
def getInputState (pins : Nat → Option St) (pin : Nat) : St :=
  match pins pin with
  | none => St.float
  | some s => if s = St.float then St.high else s

/-- The `nand` helper of `LS00.evaluate` (`ic-implementations.js`). -/
def nand (a b : St) : St :=
  if a = St.error ∨ b = St.error then St.error
  else
    let andv := if a = St.high ∧ b = St.high then St.high else St.low
    if andv = St.high then St.low else St.high

/-- `LS00.evaluate`: quad 2-input NAND; unpowered ⇒ all outputs FLOAT. -/
def LS00.evaluate (powered : Bool) (pins : Nat → Option St) :
    List (Nat × St) :=
  if !powered then
    [(3, St.float), (6, St.float), (8, St.float), (11, St.float)]
  else
    let a1 := getInputState pins 1
    let b1 := getInputState pins 2
    let a2 := getInputState pins 4
    let b2 := getInputState pins 5
    let a3 := getInputState pins 9
    let b3 := getInputState pins 10
    let a4 := getInputState pins 12
    let b4 := getInputState pins 13
    [(3, nand a1 b1), (6, nand a2 b2), (8, nand a3 b3), (11, nand a4 b4)]

/-- `LS138.evaluate`: 3-to-8 decoder.  Enable is `G1·¬G2A·¬G2B`; disabled ⇒
all outputs HIGH; enabled ⇒ the output indexed by `C*4+B*2+A` is LOW and
the rest HIGH (`outputs = Array(8).fill(HIGH); outputs[select] = LOW`). -/
def LS138.evaluate (powered : Bool) (pins : Nat → Option St) :
    List (Nat × St) :=
  if !powered then
    [(15, St.float), (14, St.float), (13, St.float), (12, St.float),
      (11, St.float), (10, St.float), (9, St.float), (7, St.float)]
  else
    let a := getInputState pins 1
    let b := getInputState pins 2
    let c := getInputState pins 3
    let g2a := getInputState pins 4
    let g2b := getInputState pins 5
    let g1 := getInputState pins 6
    if ¬ (g1 = St.high ∧ g2a = St.low ∧ g2b = St.low) then
      [(15, St.high), (14, St.high), (13, St.high), (12, St.high),
        (11, St.high), (10, St.high), (9, St.high), (7, St.high)]
    else
      let select := (if c = St.high then 4 else 0) +
        (if b = St.high then 2 else 0) + (if a = St.high then 1 else 0)
      let out := fun k => if k = select then St.low else St.high
      [(15, out 0), (14, out 1), (13, out 2), (12, out 3),
        (11, out 4), (10, out 5), (9, out 6), (7, out 7)]

/-- `LS283.evaluate`: 4-bit ripple-carry adder.  A non-HIGH input (LOW,
FLOAT-coerced, or ERROR) contributes bit 0; `sum & 1` is the sum bit and
`sum >> 1` the carry. -/
def LS283.evaluate (powered : Bool) (pins : Nat → Option St) :
    List (Nat × St) :=
  if !powered then
    [(13, St.float), (12, St.float), (10, St.float), (9, St.float),
      (14, St.float)]
  else
    let bit := fun p => if getInputState pins p = St.high then 1 else 0
    let s1 := bit 1 + bit 2 + bit 15
    let s2 := bit 3 + bit 4 + s1 / 2
    let s3 := bit 5 + bit 6 + s2 / 2
    let s4 := bit 7 + bit 11 + s3 / 2
    [(13, if s1 % 2 ≠ 0 then St.high else St.low),
      (12, if s2 % 2 ≠ 0 then St.high else St.low),
      (10, if s3 % 2 ≠ 0 then St.high else St.low),
      (9, if s4 % 2 ≠ 0 then St.high else St.low),
      (14, if s4 / 2 ≠ 0 then St.high else St.low)]

/-- One flip-flop's internal record (`{ q, lastClk }`). -/
structure FF where
  q : St
  lastClk : St
deriving DecidableEq, Repr

/-- Internal state of the dual flip-flop chips (LS74, LS76). -/
structure DualFF where
  ff1 : FF
  ff2 : FF
deriving DecidableEq, Repr

/-- `LS74.evaluate`: dual D flip-flop, rising edge.  `lastClk` is stored
unconditionally before the async-priority chain; outputs are
`(5,Q1) (6,Q1bar) (9,Q2) (8,Q2bar)`. -/
def LS74.evaluate (powered : Bool) (pins : Nat → Option St) (st : DualFF) :
    DualFF × List (Nat × St) :=
  if !powered then
    (st, [(5, St.float), (6, St.float), (9, St.float), (8, St.float)])
  else
    let clr1 := getInputState pins 1
    let d1 := getInputState pins 2
    let clk1 := getInputState pins 3
    let pr1 := getInputState pins 4
    let q1 :=
      if clr1 = St.low ∧ pr1 = St.high then St.low
      else if pr1 = St.low ∧ clr1 = St.high then St.high
      else if clr1 = St.low ∧ pr1 = St.low then St.high
      else if st.ff1.lastClk = St.low ∧ clk1 = St.high then d1
      else st.ff1.q
    let q1bar := if q1 = St.high then St.low else St.high
    let clr2 := getInputState pins 13
    let d2 := getInputState pins 12
    let clk2 := getInputState pins 11
    let pr2 := getInputState pins 10
    let q2 :=
      if clr2 = St.low ∧ pr2 = St.high then St.low
      else if pr2 = St.low ∧ clr2 = St.high then St.high
      else if clr2 = St.low ∧ pr2 = St.low then St.high
      else if st.ff2.lastClk = St.low ∧ clk2 = St.high then d2
      else st.ff2.q
    let q2bar := if q2 = St.high then St.low else St.high
    (⟨⟨q1, clk1⟩, ⟨q2, clk2⟩⟩,
      [(5, q1), (6, q1bar), (9, q2), (8, q2bar)])

/-- `LS76.evaluate`: dual JK flip-flop, falling edge; same async priority
as LS74; outputs `(15,Q1) (16,Q1bar) (9,Q2) (8,Q2bar)`. -/
def LS76.evaluate (powered : Bool) (pins : Nat → Option St) (st : DualFF) :
    DualFF × List (Nat × St) :=
  if !powered then
    (st, [(15, St.float), (16, St.float), (9, St.float), (8, St.float)])
  else
    let clk1 := getInputState pins 1
    let pr1 := getInputState pins 2
    let clr1 := getInputState pins 3
    let j1 := getInputState pins 4
    let k1 := getInputState pins 6
    let q1 :=
      if clr1 = St.low ∧ pr1 = St.high then St.low
      else if pr1 = St.low ∧ clr1 = St.high then St.high
      else if clr1 = St.low ∧ pr1 = St.low then St.high
      else if st.ff1.lastClk = St.high ∧ clk1 = St.low then
        if j1 = St.high ∧ k1 = St.low then St.high
        else if j1 = St.low ∧ k1 = St.high then St.low
        else if j1 = St.high ∧ k1 = St.high then
          (if st.ff1.q = St.high then St.low else St.high)
        else st.ff1.q
      else st.ff1.q
    let q1bar := if q1 = St.high then St.low else St.high
    let clk2 := getInputState pins 12
    let pr2 := getInputState pins 11
    let clr2 := getInputState pins 10
    let j2 := getInputState pins 14
    let k2 := getInputState pins 13
    let q2 :=
      if clr2 = St.low ∧ pr2 = St.high then St.low
      else if pr2 = St.low ∧ clr2 = St.high then St.high
      else if clr2 = St.low ∧ pr2 = St.low then St.high
      else if st.ff2.lastClk = St.high ∧ clk2 = St.low then
        if j2 = St.high ∧ k2 = St.low then St.high
        else if j2 = St.low ∧ k2 = St.high then St.low
        else if j2 = St.high ∧ k2 = St.high then
          (if st.ff2.q = St.high then St.low else St.high)
        else st.ff2.q
      else st.ff2.q
    let q2bar := if q2 = St.high then St.low else St.high
    (⟨⟨q1, clk1⟩, ⟨q2, clk2⟩⟩,
      [(15, q1), (16, q1bar), (9, q2), (8, q2bar)])

/-- One ripple-counter section (`{ count, lastClk }`). -/
structure Sect where
  count : Nat
  lastClk : St
deriving DecidableEq, Repr

/-- Internal state of the ripple counters (LS90, LS93). -/
structure CounterState where
  sectionA : Sect
  sectionB : Sect
deriving DecidableEq, Repr

/-- `LS90.evaluate`: decade counter.  Reset (both R0 HIGH) and set-9 (both
R9 HIGH) bypass the counting branch entirely — in those branches the
`lastClk` registers are NOT touched, exactly as in the source.  Outputs
`(12,QA) (9,QB) (8,QC) (11,QD)`. -/
def LS90.evaluate (powered : Bool) (pins : Nat → Option St)
    (st : CounterState) : CounterState × List (Nat × St) :=
  if !powered then
    (st, [(12, St.float), (9, St.float), (8, St.float), (11, St.float)])
  else
    let r01 := getInputState pins 2
    let r02 := getInputState pins 3
    let r91 := getInputState pins 6
    let r92 := getInputState pins 7
    let st' :=
      if r01 = St.high ∧ r02 = St.high then
        ⟨⟨0, st.sectionA.lastClk⟩, ⟨0, st.sectionB.lastClk⟩⟩
      else if r91 = St.high ∧ r92 = St.high then
        (⟨⟨1, st.sectionA.lastClk⟩, ⟨4, st.sectionB.lastClk⟩⟩ : CounterState)
      else
        let clkA := getInputState pins 14
        let countA :=
          if st.sectionA.lastClk = St.high ∧ clkA = St.low then
            (st.sectionA.count + 1) % 2
          else st.sectionA.count
        let clkB := getInputState pins 1
        let countB :=
          if st.sectionB.lastClk = St.high ∧ clkB = St.low then
            (st.sectionB.count + 1) % 5
          else st.sectionB.count
        ⟨⟨countA, clkA⟩, ⟨countB, clkB⟩⟩
    let qa := if st'.sectionA.count &&& 1 ≠ 0 then St.high else St.low
    let qb := if st'.sectionB.count &&& 1 ≠ 0 then St.high else St.low
    let qc := if st'.sectionB.count &&& 2 ≠ 0 then St.high else St.low
    let qd := if st'.sectionB.count &&& 4 ≠ 0 then St.high else St.low
    (st', [(12, qa), (9, qb), (8, qc), (11, qd)])

/-- `LS93.evaluate`: 4-bit binary counter; like LS90 with a mod-8 section B
and no set-9 input.  The `lastClk` registers are untouched while reset is
asserted, as in the source. -/
def LS93.evaluate (powered : Bool) (pins : Nat → Option St)
    (st : CounterState) : CounterState × List (Nat × St) :=
  if !powered then
    (st, [(12, St.float), (9, St.float), (8, St.float), (11, St.float)])
  else
    let r01 := getInputState pins 2
    let r02 := getInputState pins 3
    let st' :=
      if r01 = St.high ∧ r02 = St.high then
        (⟨⟨0, st.sectionA.lastClk⟩, ⟨0, st.sectionB.lastClk⟩⟩ : CounterState)
      else
        let clkA := getInputState pins 14
        let countA :=
          if st.sectionA.lastClk = St.high ∧ clkA = St.low then
            (st.sectionA.count + 1) % 2
          else st.sectionA.count
        let clkB := getInputState pins 1
        let countB :=
          if st.sectionB.lastClk = St.high ∧ clkB = St.low then
            (st.sectionB.count + 1) % 8
          else st.sectionB.count
        ⟨⟨countA, clkA⟩, ⟨countB, clkB⟩⟩
    let qa := if st'.sectionA.count &&& 1 ≠ 0 then St.high else St.low
    let qb := if st'.sectionB.count &&& 1 ≠ 0 then St.high else St.low
    let qc := if st'.sectionB.count &&& 2 ≠ 0 then St.high else St.low
    let qd := if st'.sectionB.count &&& 4 ≠ 0 then St.high else St.low
    (st', [(12, qa), (9, qb), (8, qc), (11, qd)])

/-- Concrete input net states for the C4 counterexample: LS138 powered and
enabled (`G1` HIGH, `G2A`/`G2B` LOW) with address input `A` reading ERROR. -/
def errPins138 : Nat → Option St := fun p =>
  match p with
  | 1 => some St.error
  | 2 => some St.low
  | 3 => some St.low
  | 4 => some St.low
  | 5 => some St.low
  | 6 => some St.high
  | _ => none

/-- Concrete input net states for the C5 counterexample: LS90 powered with
both R0 pins HIGH (reset asserted) and CKA reading LOW. -/
def r0Pins90 : Nat → Option St := fun p =>
  match p with
  | 2 => some St.high
  | 3 => some St.high
  | 14 => some St.low
  | _ => none

/-- Concrete input net states for the C9 witness: pin 1 unbound, pin 2
bound to a LOW net. -/
def unboundPins00 : Nat → Option St := fun p =>
  match p with
  | 2 => some St.low
  | _ => none

/-- Pin types registered with the wiring manager
(`'INPUT' | 'OUTPUT' | 'POWER' | 'CLOCK' | 'NC'`). -/
inductive PType where
  | input
  | output
  | power
  | clock
  | nc
deriving DecidableEq, Repr

/-- A wire record (`{ id, source, target, color }`).  The source generates
ids from a timestamp and a random suffix; uniqueness is modelled by a
counter. -/
structure Wire where
  id : Nat
  source : String
  target : String
  color : String
deriving DecidableEq, Repr

/-- `WiringManager` state: the wire list, the adjacency map
(`connections`), `pinToNodeId`, and `pinTypes`.  `wireCounter` models the
generator of fresh wire ids. -/
structure WiringState where
  wires : List Wire
  connections : List (String × List String)
  pinToNodeId : List (String × String)
  pinTypes : List (String × PType)
  wireCounter : Nat
deriving DecidableEq, Repr

/-- `WiringManager.validateWire`: self-connection, duplicate wire (either
orientation), output-to-output, and the VCC/GND rail short (the source
checks the `vcc`/`gnd` pair twice; the second check is kept). -/
def validateWire (st : WiringState) (s t : String) : Option String :=
  if s = t then some "Cannot connect pin to itself"
  else if st.wires.any fun w =>
      (w.source = s ∧ w.target = t) ∨ (w.source = t ∧ w.target = s) then
    some "Wire already exists"
  else if lookupA st.pinTypes s = some PType.output ∧
      lookupA st.pinTypes t = some PType.output then
    some "Cannot connect output to output"
  else if (s = "vcc" ∧ t = "gnd") ∨ (s = "gnd" ∧ t = "vcc") then
    some "Cannot short VCC to GND"
  else if s = "vcc" ∧ t = "gnd" then
    some "Cannot connect VCC to GND"
  else none

/-- Adding `y` to `x`'s adjacency set: `connections.get(x).add(y)` after
creating the set if absent (JS `Set.add`: append when not present). -/
def addConnL (conns : List (String × List String)) (x y : String) :
    List (String × List String) :=
  let cur := (lookupA conns x).getD []
  setA conns x (if y ∈ cur then cur else cur ++ [y])

/-- The adjacency list of a pin. -/
def nbrs (conns : List (String × List String)) (p : String) : List String :=
  (lookupA conns p).getD []

/-- Total length of all adjacency lists; used to bound the flood fill. -/
def connLen (conns : List (String × List String)) : Nat :=
  (conns.map fun c => c.2.length).sum

/-- All pins that can ever be pushed on the flood-fill stack starting from
`start`: the start pin and every pin occurring in an adjacency list. -/
def floodUni (conns : List (String × List String)) (start : String) :
    List String :=
  (start :: conns.flatMap fun c => c.2).dedup

/-- Fuel that provably suffices for the flood fill to drain its stack. -/
def floodFuel (conns : List (String × List String)) (start : String) : Nat :=
  (floodUni conns start).length * (connLen conns + 2) + 2

/-- Termination measure of the flood fill: the stack length plus a bound on
the work still hidden in unvisited pins. -/
def floodMeasure (u : List String) (len : Nat) (stack visited : List String) :
    Nat :=
  stack.length + (u.filter fun x => x ∉ visited).length * (len + 2)

/-- The flood fill inside `WiringManager.mergeNets`: DFS over `connections`
from the start pin, entering every visited pin into `pinToNodeId` with the
surviving node id.  The JS loop pops from the array's tail and pushes
neighbours in order; the model pops the list head and prepends the
neighbour list, which permutes the traversal order but visits the same
pins and writes the same single value.  Returns the visited set, the
updated map, and whether the stack drained before the fuel ran out. -/
def flood (conns : List (String × List String)) (newId : String) :
    Nat → List String → List String → List (String × String) →
    List String × List (String × String) × Bool
  | 0, _, visited, p2n => (visited, p2n, false)
  | _ + 1, [], visited, p2n => (visited, p2n, true)
  | fuel + 1, p :: rest, visited, p2n =>
    if p ∈ visited then flood conns newId fuel rest visited p2n
    else
      flood conns newId fuel (nbrs conns p ++ rest) (p :: visited)
        (setA p2n p newId)

/-- `WiringManager.mergeNets`: when both pins are registered to distinct
nodes, the engine-side `mergeNodes(nodeA, nodeB)` keeps `nodeA` (modelled
separately as `mergeNodes`), and the flood fill remaps every pin reachable
from `pinA` to it.  Identical or missing nodes leave the state unchanged. -/
def mergeNetsW (st : WiringState) (pinA pinB : String) : WiringState :=
  match lookupA st.pinToNodeId pinA, lookupA st.pinToNodeId pinB with
  | some nodeA, some nodeB =>
    if nodeA ≠ nodeB then
      let r := flood st.connections nodeA
        (floodFuel st.connections pinA) [pinA] [] st.pinToNodeId
      { st with pinToNodeId := r.2.1 }
    else st
  | _, _ => st

/-- `WiringManager.addWire`: validate, record the wire, add both adjacency
directions, merge the nets.  Returns the new wire id (or `none`), the
state, and the `onWireError` invocations `(source, target, message)`. -/
def addWire (st : WiringState) (s t : String) (color : String) :
    Option Nat × WiringState × List (String × String × String) :=
  match validateWire st s t with
  | some err => (none, st, [(s, t, err)])
  | none =>
    let wid := st.wireCounter
    let st1 : WiringState := { st with
      wires := st.wires ++ [⟨wid, s, t, color⟩],
      wireCounter := wid + 1 }
    let st2 : WiringState := { st1 with
      connections := addConnL (addConnL st1.connections s t) t s }
    (some wid, mergeNetsW st2 s t, [])

/-- A scheduled task, modelled by the `engine.schedule(delay, subtask)`
calls its closure performs when run, in order.  The `Nat` is an
observation label for tracking execution. -/
inductive EvTask where
  | mk : Nat → List (Nat × EvTask) → EvTask

/-- The task's label. -/
def EvTask.id : EvTask → Nat
  | .mk i _ => i

/-- The schedule calls the task performs. -/
def EvTask.spawns : EvTask → List (Nat × EvTask)
  | .mk _ s => s

mutual
/-- Total size of a task tree; the drain's termination measure. -/
def EvTask.size : EvTask → Nat
  | .mk _ s => 1 + sizeSpawns s

/-- Total size of a spawn list. -/
def sizeSpawns : List (Nat × EvTask) → Nat
  | [] => 0
  | p :: rest => p.2.size + sizeSpawns rest
end

/-- An event-queue entry `{ time, task }` of `CircuitEngine`.  `seq`
records the insertion order, which the ES2019-stable `Array.sort` by
`time` preserves within equal times. -/
structure Entry where
  time : Nat
  seq : Nat
  task : EvTask

/-- Scheduler state: `eventQueue`, `currentTime`, and the next insertion
sequence number. -/
structure Sched where
  queue : List Entry
  now : Nat
  counter : Nat

/-- One step of insertion sort with the comparator
`(a, b) => a.time - b.time`. -/
def insertByTime (e : Entry) : List Entry → List Entry
  | [] => [e]
  | f :: fs =>
    if e.time ≤ f.time then e :: f :: fs else f :: insertByTime e fs

/-- Insertion sort by `time`.  It is stable, so on every input it returns
the same list as the stable `Array.prototype.sort` called by
`CircuitEngine.schedule`. -/
def sortByTime : List Entry → List Entry
  | [] => []
  | e :: es => insertByTime e (sortByTime es)

/-- `CircuitEngine.schedule(delayNa, task)`: push
`{ time: currentTime + delay, task }` and keep the queue sorted. -/
def schedule (st : Sched) (delay : Nat) (task : EvTask) : Sched :=
  { st with
    queue := sortByTime (st.queue ++ [⟨st.now + delay, st.counter, task⟩]),
    counter := st.counter + 1 }

/-- Running a task's body: perform its schedule calls in order. -/
def runSpawns (st : Sched) (spawns : List (Nat × EvTask)) : Sched :=
  spawns.foldl (fun s p => schedule s p.1 p.2) st

/-- Total task size in a queue. -/
def queueSize (q : List Entry) : Nat :=
  (q.map fun e => e.task.size).sum

/-- The drain loop of `CircuitEngine.step`: while the head event is ripe
(`eventQueue[0].time <= currentTime`), shift it and run its task.  A fuel
counter makes the recursion structural; the returned flag records that the
loop terminated on its own before the fuel ran out. -/
def drainF : Nat → Sched → List Entry × Sched × Bool
  | 0, st => ([], st, false)
  | fuel + 1, st =>
    match st.queue with
    | [] => ([], st, true)
    | e :: rest =>
      if e.time ≤ st.now then
        let r := drainF fuel (runSpawns { st with queue := rest }
          e.task.spawns)
        (e :: r.1, r.2.1, r.2.2)
      else ([], st, true)

/-- `CircuitEngine.step(dt)`: advance `currentTime` by `dt`, then drain all
ripe events.  The fuel `queueSize + 1` is proved sufficient below. -/
def step (st : Sched) (dt : Nat) : List Entry × Sched × Bool :=
  drainF (queueSize st.queue + 1) { st with now := st.now + dt }

/-- Strict lexicographic order on `(time, seq)`. -/
def entLex (e f : Entry) : Prop :=
  e.time < f.time ∨ (e.time = f.time ∧ e.seq < f.seq)

/-- The scheduler's queue invariant: sorted by time with insertion order
preserved among equal times (strictly increasing `seq`), and every `seq`
below the insertion counter. -/
def SchedInv (st : Sched) : Prop :=
  st.queue.Pairwise entLex ∧ ∀ e ∈ st.queue, e.seq < st.counter

/-- Ordered insertion after all equal times: where a stable sort places a
newly appended entry in an already sorted queue. -/
def insertTail (x : Entry) : List Entry → List Entry
  | [] => [x]
  | f :: fs =>
    if x.time < f.time then x :: f :: fs else f :: insertTail x fs

lemma any_eq_mem (vals : List St) (s : St) :
    (vals.any fun v => v = s) = true ↔ s ∈ vals := by
  simp [List.any_eq_true]

lemma resolve_error_iff (vals : List St) :
    resolve vals = St.error ↔
      St.error ∈ vals ∨ (St.high ∈ vals ∧ St.low ∈ vals) := by
  unfold resolve
  by_cases he : St.error ∈ vals <;> by_cases hh : St.high ∈ vals <;>
    by_cases hl : St.low ∈ vals <;>
      simp [any_eq_mem, he, hh, hl]

lemma resolve_high_iff (vals : List St) (hne : resolve vals ≠ St.error) :
    resolve vals = St.high ↔ St.high ∈ vals := by
  unfold resolve
  unfold resolve at hne
  by_cases he : St.error ∈ vals <;> by_cases hh : St.high ∈ vals <;>
    by_cases hl : St.low ∈ vals <;>
      simp [any_eq_mem, he, hh, hl] at hne ⊢

lemma resolve_low_iff (vals : List St)
    (hne : resolve vals ≠ St.error) (hnh : resolve vals ≠ St.high) :
    resolve vals = St.low ↔ St.low ∈ vals := by
  unfold resolve
  unfold resolve at hne hnh
  by_cases he : St.error ∈ vals <;> by_cases hh : St.high ∈ vals <;>
    by_cases hl : St.low ∈ vals <;>
      simp [any_eq_mem, he, hh, hl] at hne hnh ⊢

lemma resolve_float_iff (vals : List St) (_hne : vals ≠ []) :
    resolve vals = St.float ↔ ∀ v ∈ vals, v = St.float := by
  unfold resolve
  by_cases he : St.error ∈ vals <;> by_cases hh : St.high ∈ vals <;>
    by_cases hl : St.low ∈ vals <;>
      simp [any_eq_mem, he, hh, hl]
  · exact ⟨St.error, he, by simp⟩
  · exact ⟨St.error, he, by simp⟩
  · exact ⟨St.error, he, by simp⟩
  · exact ⟨St.error, he, by simp⟩
  · exact ⟨St.high, hh, by simp⟩
  · exact ⟨St.high, hh, by simp⟩
  · exact ⟨St.low, hl, by simp⟩
  · intro v hv
    cases v with
    | low => exact absurd hv hl
    | high => exact absurd hv hh
    | float => rfl
    | error => exact absurd hv he

lemma resolve_perm (vals vals' : List St) (h : vals.Perm vals') :
    resolve vals = resolve vals' := by
  unfold resolve
  have he : (St.error ∈ vals) = (St.error ∈ vals') := by
    simp [h.mem_iff]
  have hh : (St.high ∈ vals) = (St.high ∈ vals') := by
    simp [h.mem_iff]
  have hl : (St.low ∈ vals) = (St.low ∈ vals') := by
    simp [h.mem_iff]
  by_cases e1 : St.error ∈ vals <;> by_cases h1 : St.high ∈ vals <;>
    by_cases l1 : St.low ∈ vals <;>
      simp_all [any_eq_mem]

/-- C1: for every non-empty multiset of driver values, `Node.resolve`
returns ERROR iff an ERROR value appears or both HIGH and LOW appear;
otherwise HIGH iff HIGH appears; otherwise LOW iff LOW appears; and
FLOAT iff every driver returned FLOAT.  The result is invariant under
permutation of the driver iteration order. -/
theorem resolve_spec (vals vals' : List St) (hne : vals ≠ [])
    (hperm : vals.Perm vals') :
    (resolve vals = St.error ↔
      St.error ∈ vals ∨ (St.high ∈ vals ∧ St.low ∈ vals)) ∧
    (resolve vals ≠ St.error →
      (resolve vals = St.high ↔ St.high ∈ vals)) ∧
    (resolve vals ≠ St.error → resolve vals ≠ St.high →
      (resolve vals = St.low ↔ St.low ∈ vals)) ∧
    (resolve vals = St.float ↔ ∀ v ∈ vals, v = St.float) ∧
    resolve vals = resolve vals' := by
  refine ⟨resolve_error_iff vals, fun hne' => resolve_high_iff vals hne',
    fun hne' hnh => resolve_low_iff vals hne' hnh,
    resolve_float_iff vals hne, resolve_perm vals vals' hperm⟩

/-- Witness for C1 at a concrete driver list. -/
theorem resolve_spec_witness :
    ([St.high, St.float] ≠ [] ∧
      ([St.high, St.float]).Perm [St.float, St.high]) ∧
    ((resolve [St.high, St.float] = St.error ↔
      St.error ∈ [St.high, St.float] ∨
        (St.high ∈ [St.high, St.float] ∧ St.low ∈ [St.high, St.float])) ∧
    (resolve [St.high, St.float] ≠ St.error →
      (resolve [St.high, St.float] = St.high ↔
        St.high ∈ [St.high, St.float])) ∧
    (resolve [St.high, St.float] ≠ St.error →
      resolve [St.high, St.float] ≠ St.high →
      (resolve [St.high, St.float] = St.low ↔
        St.low ∈ [St.high, St.float])) ∧
    (resolve [St.high, St.float] = St.float ↔
      ∀ v ∈ [St.high, St.float], v = St.float) ∧
    resolve [St.high, St.float] = resolve [St.float, St.high]) :=
  ⟨⟨by decide, by decide⟩,
    resolve_spec [St.high, St.float] [St.float, St.high]
      (by decide) (by decide)⟩

/-- C10: `mergeNodes(a, b)` with `a = b`, or with either id absent from the
node map, returns before any mutation: the node map is unchanged, no
listener fires, and no net update runs. -/
theorem mergeNodes_noop (env : Nat → St) (st : EngineM) (a b : String)
    (h : a = b ∨ lookupA st.nodes a = none ∨ lookupA st.nodes b = none) :
    mergeNodes env st a b = (st, [], none) := by
  by_cases hab : a = b
  · simp [mergeNodes, hab]
  rcases h with h | h | h
  · exact absurd h hab
  · rcases hb : lookupA st.nodes b with _ | nb <;>
      simp [mergeNodes, hab, h, hb]
  · rcases ha : lookupA st.nodes a with _ | na <;>
      simp [mergeNodes, hab, h, ha]

/-- Witness for C10 at a concrete engine. -/
theorem mergeNodes_noop_witness :
    ("n" = "n" ∨ lookupA (EngineM.mk []).nodes "n" = none ∨
      lookupA (EngineM.mk []).nodes "n" = none) ∧
    mergeNodes (fun _ => St.float) (EngineM.mk []) "n" "n" =
      (EngineM.mk [], [], none) :=
  ⟨Or.inl rfl,
    mergeNodes_noop (fun _ => St.float) (EngineM.mk []) "n" "n" (Or.inl rfl)⟩

/-- Counterexample to C2: a powered chip whose output register moves from
FLOAT to HIGH.  `TTLChip.propagate` runs `node.update()` synchronously, so
the net listener observes HIGH during the evaluation itself — nothing is
left for a `+propagation_delay` event, contradicting the claim that
listeners see the new state only after the delay. -/
theorem propagate_sync_counterexample :
    (propagate
      (PropChip.mk true [(3, St.float)] [(3, PNode.mk St.float [] [7])])
      [(3, St.high)]).2 = [(7, St.high)] ∧
    ([(7, St.high)] : List (Nat × St)) ≠ [] := by
  constructor
  · decide
  · decide

/-- C2 amended: when a proposal differs from the current output register
value and the output pin has a bound net, `TTLChip.propagate` stores the
proposal in `output_register[pin]` and synchronously invokes every listener
of that net with the newly resolved state; no `net.update()` is scheduled at
`current_time + propagation_delay` (the chip's `propDelay` field is unused
by `propagate`). -/
theorem propagate_synchronous (c : PropChip) (pin : Nat) (s : St)
    (node : PNode) (hreg : lookupA c.outputStates pin ≠ some s)
    (hnode : lookupA c.pinNodes pin = some node) :
    (propagate c [(pin, s)]).1.outputStates = setA c.outputStates pin s ∧
    (propagate c [(pin, s)]).2 = node.listeners.map fun l =>
      (l, resolveOut { c with outputStates := setA c.outputStates pin s }
        pin node) := by
  simp only [propagate, List.foldl, propagateOne]
  rw [if_pos hreg, hnode]
  dsimp only
  by_cases hch :
      resolveOut { c with outputStates := setA c.outputStates pin s } pin
        node ≠ node.state
  · rw [if_pos hch]
    exact ⟨rfl, by simp⟩
  · rw [if_neg hch]
    push_neg at hch
    exact ⟨rfl, by simp⟩

/-- Witness for the amended C2 at a concrete chip. -/
theorem propagate_synchronous_witness :
    (lookupA (PropChip.mk true [(3, St.float)]
        [(3, PNode.mk St.float [] [7])]).outputStates 3 ≠ some St.high ∧
      lookupA (PropChip.mk true [(3, St.float)]
        [(3, PNode.mk St.float [] [7])]).pinNodes 3 =
          some (PNode.mk St.float [] [7])) ∧
    ((propagate (PropChip.mk true [(3, St.float)]
        [(3, PNode.mk St.float [] [7])]) [(3, St.high)]).1.outputStates =
      setA (PropChip.mk true [(3, St.float)]
        [(3, PNode.mk St.float [] [7])]).outputStates 3 St.high ∧
    (propagate (PropChip.mk true [(3, St.float)]
        [(3, PNode.mk St.float [] [7])]) [(3, St.high)]).2 =
      (PNode.mk St.float [] [7]).listeners.map fun l =>
        (l, resolveOut { PropChip.mk true [(3, St.float)]
            [(3, PNode.mk St.float [] [7])] with
          outputStates := setA (PropChip.mk true [(3, St.float)]
            [(3, PNode.mk St.float [] [7])]).outputStates 3 St.high } 3
          (PNode.mk St.float [] [7]))) :=
  ⟨⟨by decide, by decide⟩,
    propagate_synchronous
      (PropChip.mk true [(3, St.float)] [(3, PNode.mk St.float [] [7])])
      3 St.high (PNode.mk St.float [] [7]) (by decide) (by decide)⟩

/-- Counterexample to C3: the net is already cached HIGH (another driver on
the net returns HIGH); the chip's output register moves FLOAT → HIGH, the
resolved state is unchanged, and `TTLChip.propagate`'s force-notification
branch still invokes the listener — a kernel operation calling a net's
listeners while the net's cached state is unchanged. -/
theorem propagate_force_notify_counterexample :
    (propagate
      (PropChip.mk true [(3, St.float)]
        [(3, PNode.mk St.high [St.high] [7])])
      [(3, St.high)]).2 = [(7, St.high)] ∧
    lookupA (propagate
      (PropChip.mk true [(3, St.float)]
        [(3, PNode.mk St.high [St.high] [7])])
      [(3, St.high)]).1.pinNodes 3 = some (PNode.mk St.high [St.high] [7]) := by
  constructor <;> decide

/-- C3 amended: `Node.update` invokes listeners only when the resolved state
differs from the cached state; however `TTLChip.propagate` invokes a net's
listeners whenever the output register for the pin changes — including,
through its force-notification branch, when the net's resolved state (and
hence its cached state) is unchanged — and invokes none when the proposal
equals the register. -/
theorem listener_invocation_policy :
    (∀ (env : Nat → St) (n : NodeM),
      (nodeUpdate env n).2.1 ≠ [] → (nodeUpdate env n).1.state ≠ n.state) ∧
    (∀ (c : PropChip) (pin : Nat) (s : St) (node : PNode),
      lookupA c.outputStates pin ≠ some s →
      lookupA c.pinNodes pin = some node →
      resolveOut { c with outputStates := setA c.outputStates pin s } pin
          node = node.state →
      propagateOne c (pin, s) =
        ({ c with outputStates := setA c.outputStates pin s },
          node.listeners.map fun l => (l, node.state))) ∧
    (∀ (c : PropChip) (pin : Nat) (s : St),
      lookupA c.outputStates pin = some s →
      propagateOne c (pin, s) = (c, [])) := by
  refine ⟨?_, ?_, ?_⟩
  · intro env n h
    unfold nodeUpdate at h ⊢
    by_cases hne : resolve (n.drivers.map env) ≠ n.state
    · rw [if_pos hne] at h ⊢
      simpa using hne
    · rw [if_neg hne] at h
      simp at h
  · intro c pin s node hreg hnode hsame
    unfold propagateOne
    dsimp only
    rw [if_pos hreg, hnode]
    dsimp only
    rw [if_neg (by simpa using hsame), hsame]
  · intro c pin s hreg
    unfold propagateOne
    dsimp only
    rw [if_neg (not_not_intro hreg)]

/-- Witness for the amended C3 (the theorem's inner implications are
discharged at a concrete chip through the first conjunct's contrapositive
shape; here we instantiate the register-unchanged conjunct). -/
theorem listener_invocation_policy_witness :
    lookupA (PropChip.mk true [(3, St.high)] []).outputStates 3 =
      some St.high ∧
    propagateOne (PropChip.mk true [(3, St.high)] []) (3, St.high) =
      (PropChip.mk true [(3, St.high)] [], []) :=
  ⟨by decide,
    listener_invocation_policy.2.2 (PropChip.mk true [(3, St.high)] []) 3
      St.high (by decide)⟩

lemma nand_error_left (a b : St) (h : a = St.error) :
    nand a b = St.error := by
  simp [nand, h]

lemma nand_error_or (a b : St) (h : a = St.error ∨ b = St.error) :
    nand a b = St.error := by
  rcases h with h | h <;> simp [nand, h]

lemma ite_low_high_ne_error (c : Prop) [Decidable c] :
    (if c then St.low else St.high) ≠ St.error := by
  split <;> decide

lemma ite_high_low_ne_error (c : Prop) [Decidable c] :
    (if c then St.high else St.low) ≠ St.error := by
  split <;> decide

/-- Counterexample to C4: a powered, enabled LS138 whose address input `A`
(pin 1) reads ERROR proposes LOW — not ERROR — for the affected output
`Y0` (pin 15): the decoder treats ERROR as "not HIGH" and decodes
address 0. -/
theorem ls138_error_counterexample :
    getInputState errPins138 1 = St.error ∧
    lookupA (LS138.evaluate true errPins138) 15 = some St.low ∧
    St.low ≠ St.error := by
  refine ⟨by decide, by decide, by decide⟩

/-- C4 amended: the NAND gates of LS00 do propagate an ERROR input to an
ERROR proposal on the affected output, but LS138 and LS283, while powered,
never propose ERROR on any output: LS138 treats an ERROR enable or address
input as "not HIGH" and decodes normally, and LS283 treats an ERROR operand
bit as 0. -/
theorem error_propagation_by_chip :
    (∀ pins : Nat → Option St,
      (getInputState pins 1 = St.error ∨ getInputState pins 2 = St.error →
        lookupA (LS00.evaluate true pins) 3 = some St.error) ∧
      (getInputState pins 4 = St.error ∨ getInputState pins 5 = St.error →
        lookupA (LS00.evaluate true pins) 6 = some St.error) ∧
      (getInputState pins 9 = St.error ∨ getInputState pins 10 = St.error →
        lookupA (LS00.evaluate true pins) 8 = some St.error) ∧
      (getInputState pins 12 = St.error ∨ getInputState pins 13 = St.error →
        lookupA (LS00.evaluate true pins) 11 = some St.error)) ∧
    (∀ (pins : Nat → Option St) (p : Nat) (s : St),
      (p, s) ∈ LS138.evaluate true pins → s ≠ St.error) ∧
    (∀ (pins : Nat → Option St) (p : Nat) (s : St),
      (p, s) ∈ LS283.evaluate true pins → s ≠ St.error) := by
  refine ⟨?_, ?_, ?_⟩
  · intro pins
    refine ⟨?_, ?_, ?_, ?_⟩ <;>
      (intro h; simp [LS00.evaluate, lookupA, nand_error_or _ _ h])
  · intro pins p s hmem
    by_cases henb : getInputState pins 6 = St.high ∧
        getInputState pins 4 = St.low ∧ getInputState pins 5 = St.low
    · simp [LS138.evaluate, henb] at hmem
      rcases hmem with h | h | h | h | h | h | h | h <;>
        (rw [h.2]; apply ite_low_high_ne_error)
    · simp [LS138.evaluate, henb] at hmem
      rcases hmem with h | h | h | h | h | h | h | h <;>
        (rw [h.2]; decide)
  · intro pins p s hmem
    simp [LS283.evaluate] at hmem
    rcases hmem with h | h | h | h | h <;>
      (rw [h.2];
        first
        | apply ite_high_low_ne_error
        | apply ite_low_high_ne_error)

/-- Witness for the amended C4: the LS00 ERROR-propagation conjunct at
concrete inputs (gate 1 input A reads ERROR). -/
theorem error_propagation_by_chip_witness :
    (getInputState errPins138 1 = St.error ∨
      getInputState errPins138 2 = St.error) ∧
    lookupA (LS00.evaluate true errPins138) 3 = some St.error :=
  ⟨Or.inl (by decide),
    ((error_propagation_by_chip.1 errPins138).1 (Or.inl (by decide)))⟩

/-- Counterexample to C5: a powered LS90 with both R0 pins HIGH (async
reset active) samples CKA = LOW, yet `sectionA.lastClk` keeps its stale
HIGH value after the evaluation: the counters do not refresh `last_clock`
while an async override is active. -/
theorem ls90_lastclk_counterexample :
    getInputState r0Pins90 14 = St.low ∧
    (LS90.evaluate true r0Pins90
      ⟨⟨0, St.high⟩, ⟨0, St.high⟩⟩).1.sectionA.lastClk = St.high ∧
    St.high ≠ St.low := by
  refine ⟨by decide, by decide, by decide⟩

/-- C5 amended: while powered, LS74 and LS76 store the currently sampled
clock level into each flip-flop's `lastClk` on every evaluation (async
overrides included), but LS90 and LS93 store the sampled levels only when
no async override (reset, or set-9 for LS90) is active; while an override
is active their `lastClk` registers are left unchanged. -/
theorem lastclk_update_policy :
    (∀ (pins : Nat → Option St) (st : DualFF),
      (LS74.evaluate true pins st).1.ff1.lastClk = getInputState pins 3 ∧
      (LS74.evaluate true pins st).1.ff2.lastClk = getInputState pins 11) ∧
    (∀ (pins : Nat → Option St) (st : DualFF),
      (LS76.evaluate true pins st).1.ff1.lastClk = getInputState pins 1 ∧
      (LS76.evaluate true pins st).1.ff2.lastClk = getInputState pins 12) ∧
    (∀ (pins : Nat → Option St) (st : CounterState),
      ((getInputState pins 2 = St.high ∧ getInputState pins 3 = St.high) ∨
        (¬ (getInputState pins 2 = St.high ∧
            getInputState pins 3 = St.high) ∧
          getInputState pins 6 = St.high ∧
          getInputState pins 7 = St.high) →
        (LS90.evaluate true pins st).1.sectionA.lastClk =
            st.sectionA.lastClk ∧
          (LS90.evaluate true pins st).1.sectionB.lastClk =
            st.sectionB.lastClk) ∧
      (¬ (getInputState pins 2 = St.high ∧ getInputState pins 3 = St.high) →
        ¬ (getInputState pins 6 = St.high ∧ getInputState pins 7 = St.high) →
        (LS90.evaluate true pins st).1.sectionA.lastClk =
            getInputState pins 14 ∧
          (LS90.evaluate true pins st).1.sectionB.lastClk =
            getInputState pins 1)) ∧
    (∀ (pins : Nat → Option St) (st : CounterState),
      ((getInputState pins 2 = St.high ∧ getInputState pins 3 = St.high) →
        (LS93.evaluate true pins st).1.sectionA.lastClk =
            st.sectionA.lastClk ∧
          (LS93.evaluate true pins st).1.sectionB.lastClk =
            st.sectionB.lastClk) ∧
      (¬ (getInputState pins 2 = St.high ∧ getInputState pins 3 = St.high) →
        (LS93.evaluate true pins st).1.sectionA.lastClk =
            getInputState pins 14 ∧
          (LS93.evaluate true pins st).1.sectionB.lastClk =
            getInputState pins 1)) := by
  refine ⟨?_, ?_, ?_, ?_⟩
  · intro pins st
    simp [LS74.evaluate]
  · intro pins st
    simp [LS76.evaluate]
  · intro pins st
    constructor
    · rintro (hr0 | ⟨hnr0, hr9⟩)
      · simp [LS90.evaluate, hr0]
      · simp [LS90.evaluate, hnr0, hr9]
    · intro hnr0 hnr9
      simp [LS90.evaluate, hnr0, hnr9]
  · intro pins st
    constructor
    · intro hr0
      simp [LS93.evaluate, hr0]
    · intro hnr0
      simp [LS93.evaluate, hnr0]

/-- Witness for the amended C5: LS90's override branch at concrete inputs
(reset asserted, CKA LOW, stale HIGH in `lastClk`). -/
theorem lastclk_update_policy_witness :
    (getInputState r0Pins90 2 = St.high ∧
      getInputState r0Pins90 3 = St.high) ∧
    ((LS90.evaluate true r0Pins90
        ⟨⟨0, St.high⟩, ⟨0, St.high⟩⟩).1.sectionA.lastClk = St.high ∧
      (LS90.evaluate true r0Pins90
        ⟨⟨0, St.high⟩, ⟨0, St.high⟩⟩).1.sectionB.lastClk = St.high) :=
  ⟨⟨by decide, by decide⟩,
    (lastclk_update_policy.2.2.1 r0Pins90 ⟨⟨0, St.high⟩, ⟨0, St.high⟩⟩).1
      (Or.inl ⟨by decide, by decide⟩)⟩

/-- C9: an unbound chip pin reads FLOAT (not the TTL-coerced HIGH); the
floats-HIGH coercion applies exactly to a bound net in the FLOAT state;
consequently a powered LS00 gate with an unbound first input proposes HIGH
on its output (the AND of its inputs is not HIGH), provided the other input
does not read ERROR. -/
theorem unbound_input_reads_float :
    (∀ (pins : Nat → Option St) (p : Nat),
      pins p = none → getInputState pins p = St.float) ∧
    (∀ (pins : Nat → Option St) (p : Nat) (s : St),
      pins p = some s →
        getInputState pins p = (if s = St.float then St.high else s)) ∧
    (∀ pins : Nat → Option St,
      pins 1 = none → getInputState pins 2 ≠ St.error →
        lookupA (LS00.evaluate true pins) 3 = some St.high) := by
  refine ⟨?_, ?_, ?_⟩
  · intro pins p h
    simp [getInputState, h]
  · intro pins p s h
    simp [getInputState, h]
  · intro pins h1 h2
    have hg1 : getInputState pins 1 = St.float := by
      simp [getInputState, h1]
    simp [LS00.evaluate, lookupA, nand, hg1, h2]

/-- Witness for C9 at concrete inputs: pin 1 unbound, pin 2 bound LOW. -/
theorem unbound_input_reads_float_witness :
    (unboundPins00 1 = none ∧ getInputState unboundPins00 2 ≠ St.error) ∧
    lookupA (LS00.evaluate true unboundPins00) 3 = some St.high :=
  ⟨⟨by decide, by decide⟩,
    unbound_input_reads_float.2.2 unboundPins00 (by decide) (by decide)⟩

/-- C6: `add_wire(s, t)` with a self-connection, an existing wire in either
orientation, two OUTPUT pins, or the VCC/GND rail pair returns `null`,
reports the failure through `on_wire_error`, and leaves the wire list, the
adjacency map, and the pin-to-net mapping (the whole state) unchanged. -/
theorem addWire_invalid_frame (st : WiringState) (s t color : String)
    (h : s = t ∨
      (∃ w ∈ st.wires,
        (w.source = s ∧ w.target = t) ∨ (w.source = t ∧ w.target = s)) ∨
      (lookupA st.pinTypes s = some PType.output ∧
        lookupA st.pinTypes t = some PType.output) ∨
      ((s = "vcc" ∧ t = "gnd") ∨ (s = "gnd" ∧ t = "vcc"))) :
    (addWire st s t color).1 = none ∧ (addWire st s t color).2.1 = st ∧
    ∃ e, (addWire st s t color).2.2 = [(s, t, e)] := by
  obtain ⟨e, he⟩ : ∃ e, validateWire st s t = some e := by
    unfold validateWire
    split_ifs with h1 h2 h3 h4 h5
    · exact ⟨_, rfl⟩
    · exact ⟨_, rfl⟩
    · exact ⟨_, rfl⟩
    · exact ⟨_, rfl⟩
    · exact ⟨_, rfl⟩
    · exfalso
      rcases h with h | h | h | h
      · exact h1 h
      · simp only [List.any_eq_true, decide_eq_true_eq] at h2
        exact h2 h
      · exact h3 h
      · exact h4 h
  refine ⟨?_, ?_, ⟨e, ?_⟩⟩ <;> simp [addWire, he]

/-- Witness for C6: a self-connection on the empty wiring state. -/
theorem addWire_invalid_frame_witness :
    ("p" = "p" ∨
      (∃ w ∈ (WiringState.mk [] [] [] [] 0).wires,
        (w.source = "p" ∧ w.target = "p") ∨
          (w.source = "p" ∧ w.target = "p")) ∨
      (lookupA (WiringState.mk [] [] [] [] 0).pinTypes "p" =
          some PType.output ∧
        lookupA (WiringState.mk [] [] [] [] 0).pinTypes "p" =
          some PType.output) ∨
      (("p" = "vcc" ∧ "p" = "gnd") ∨ ("p" = "gnd" ∧ "p" = "vcc"))) ∧
    ((addWire (WiringState.mk [] [] [] [] 0) "p" "p" "red").1 = none ∧
      (addWire (WiringState.mk [] [] [] [] 0) "p" "p" "red").2.1 =
        WiringState.mk [] [] [] [] 0 ∧
      ∃ e, (addWire (WiringState.mk [] [] [] [] 0) "p" "p" "red").2.2 =
        [("p", "p", e)]) :=
  ⟨Or.inl rfl,
    addWire_invalid_frame (WiringState.mk [] [] [] [] 0) "p" "p" "red"
      (Or.inl rfl)⟩

lemma lookupA_setA_self {α : Type} [DecidableEq α] {β : Type}
    (l : List (α × β)) (k : α) (v : β) :
    lookupA (setA l k v) k = some v := by
  induction l with
  | nil => simp [setA, lookupA]
  | cons hd rest ih =>
    obtain ⟨k', v'⟩ := hd
    by_cases hk : k = k'
    · simp [setA, lookupA, hk]
    · simp [setA, lookupA, hk, ih]

lemma lookupA_setA_ne {α : Type} [DecidableEq α] {β : Type}
    (l : List (α × β)) (k x : α) (v : β) (h : x ≠ k) :
    lookupA (setA l k v) x = lookupA l x := by
  induction l with
  | nil => simp [setA, lookupA, h]
  | cons hd rest ih =>
    obtain ⟨k', v'⟩ := hd
    by_cases hk : k = k'
    · subst hk
      simp [setA, lookupA, h]
    · by_cases hx : x = k'
      · simp [setA, lookupA, hk, hx]
      · simp [setA, lookupA, hk, hx, ih]

lemma lookupA_mem {α : Type} [DecidableEq α] {β : Type}
    (l : List (α × β)) (k : α) (v : β) (h : lookupA l k = some v) :
    (k, v) ∈ l := by
  induction l with
  | nil => simp [lookupA] at h
  | cons hd rest ih =>
    obtain ⟨k', v'⟩ := hd
    by_cases hk : k = k'
    · subst hk
      simp [lookupA] at h
      subst h
      exact List.mem_cons_self _ _
    · simp [lookupA, hk] at h
      exact List.mem_cons_of_mem _ (ih h)

lemma filter_notmem_cons_length {α : Type} [DecidableEq α] (u : List α)
    (hu : u.Nodup) (p : α) (visited : List α) (hp : p ∈ u)
    (hnv : p ∉ visited) :
    (u.filter fun x => x ∉ p :: visited).length <
      (u.filter fun x => x ∉ visited).length := by
  induction u with
  | nil => simp at hp
  | cons q u' ih =>
    rw [List.nodup_cons] at hu
    obtain ⟨hqu, hu'⟩ := hu
    by_cases hq : q = p
    · subst hq
      have hle : (u'.filter fun x => x ∉ q :: visited).length ≤
          (u'.filter fun x => x ∉ visited).length := by
        refine List.Sublist.length_le (List.monotone_filter_right u' ?_)
        intro a ha
        simp only [decide_eq_true_eq, List.mem_cons, not_or] at ha ⊢
        exact ha.2
      simp only [List.filter_cons]
      have h1 : (decide (q ∉ q :: visited)) = false := by simp
      have h2 : (decide (q ∉ visited)) = true := by simpa using hnv
      rw [h1, h2]
      simpa using Nat.lt_succ_of_le hle
    · have hp' : p ∈ u' := by
        rcases List.mem_cons.mp hp with h | h
        · exact absurd h.symm hq
        · exact h
      by_cases hqv : q ∈ visited
      · have h1 : (decide (q ∉ p :: visited)) = false := by
          simp [hqv]
        have h2 : (decide (q ∉ visited)) = false := by
          simp [hqv]
        simp only [List.filter_cons, h1, h2]
        exact ih hu' hp'
      · have h1 : (decide (q ∉ p :: visited)) = true := by
          simp [hqv, hq]
        have h2 : (decide (q ∉ visited)) = true := by
          simp [hqv]
        simp only [List.filter_cons, h1, h2]
        simpa using Nat.succ_lt_succ (ih hu' hp')

lemma nbrs_length_le (conns : List (String × List String)) (p : String) :
    (nbrs conns p).length ≤ connLen conns := by
  induction conns with
  | nil => simp [nbrs, lookupA, connLen]
  | cons hd rest ih =>
    obtain ⟨q, lst⟩ := hd
    by_cases hq : p = q
    · simp [nbrs, lookupA, hq, connLen]
    · have : nbrs ((q, lst) :: rest) p = nbrs rest p := by
        simp [nbrs, lookupA, hq]
      rw [this]
      have hc : connLen ((q, lst) :: rest) = lst.length + connLen rest := by
        simp [connLen]
      omega

lemma mem_nbrs_uni (conns : List (String × List String))
    (start p x : String) (h : x ∈ nbrs conns p) :
    x ∈ floodUni conns start := by
  unfold floodUni
  rw [List.mem_dedup]
  apply List.mem_cons_of_mem
  rw [List.mem_flatMap]
  unfold nbrs at h
  rcases hl : lookupA conns p with _ | lst
  · rw [hl] at h
    simp at h
  · rw [hl] at h
    simp only [Option.getD_some] at h
    exact ⟨(p, lst), lookupA_mem _ _ _ hl, h⟩

lemma start_mem_uni (conns : List (String × List String)) (start : String) :
    start ∈ floodUni conns start := by
  unfold floodUni
  rw [List.mem_dedup]
  exact List.mem_cons_self _ _

lemma flood_completes (conns : List (String × List String)) (newId : String)
    (u : List String) (hu : u.Nodup)
    (hnb : ∀ p x, x ∈ nbrs conns p → x ∈ u) :
    ∀ (fuel : Nat) (stack visited : List String)
      (p2n : List (String × String)),
      (∀ x ∈ stack, x ∈ u) →
      floodMeasure u (connLen conns) stack visited < fuel →
      (flood conns newId fuel stack visited p2n).2.2 = true := by
  intro fuel
  induction fuel with
  | zero =>
    intro stack visited p2n _ hm
    exact absurd hm (Nat.not_lt_zero _)
  | succ fuel ih =>
    intro stack visited p2n hstack hm
    match stack with
    | [] => rfl
    | p :: rest =>
      simp only [flood]
      by_cases hpv : p ∈ visited
      · rw [if_pos hpv]
        apply ih rest visited p2n (fun x hx => hstack x (List.mem_cons_of_mem _ hx))
        unfold floodMeasure at hm ⊢
        simp only [List.length_cons] at hm
        omega
      · rw [if_neg hpv]
        apply ih _ _ _ ?_ ?_
        · intro x hx
          rcases List.mem_append.mp hx with hx | hx
          · exact hnb p x hx
          · exact hstack x (List.mem_cons_of_mem _ hx)
        · have hflt := filter_notmem_cons_length u hu p visited
            (hstack p (List.mem_cons_self _ _)) hpv
          have hnl := nbrs_length_le conns p
          unfold floodMeasure at hm ⊢
          simp only [List.length_cons, List.length_append] at hm ⊢
          have hmul : ((u.filter fun x => x ∉ p :: visited).length + 1) *
              (connLen conns + 2) ≤
              (u.filter fun x => x ∉ visited).length *
                (connLen conns + 2) :=
            Nat.mul_le_mul_right _ (Nat.succ_le_of_lt hflt)
          rw [Nat.add_mul, Nat.one_mul] at hmul
          omega

lemma flood_visited_mono (conns : List (String × List String))
    (newId : String) :
    ∀ (fuel : Nat) (stack visited : List String)
      (p2n : List (String × String)) (x : String), x ∈ visited →
      x ∈ (flood conns newId fuel stack visited p2n).1 := by
  intro fuel
  induction fuel with
  | zero =>
    intro stack visited p2n x hx
    exact hx
  | succ fuel ih =>
    intro stack visited p2n x hx
    match stack with
    | [] => exact hx
    | p :: rest =>
      simp only [flood]
      by_cases hpv : p ∈ visited
      · rw [if_pos hpv]
        exact ih _ _ _ x hx
      · rw [if_neg hpv]
        exact ih _ _ _ x (List.mem_cons_of_mem _ hx)

lemma flood_stack_visited (conns : List (String × List String))
    (newId : String) :
    ∀ (fuel : Nat) (stack visited : List String)
      (p2n : List (String × String)),
      (flood conns newId fuel stack visited p2n).2.2 = true →
      ∀ x ∈ stack, x ∈ (flood conns newId fuel stack visited p2n).1 := by
  intro fuel
  induction fuel with
  | zero =>
    intro stack visited p2n hcomp
    simp [flood] at hcomp
  | succ fuel ih =>
    intro stack visited p2n hcomp x hx
    match stack, hx with
    | p :: rest, hx =>
      simp only [flood] at hcomp ⊢
      by_cases hpv : p ∈ visited
      · rw [if_pos hpv] at hcomp ⊢
        rcases List.mem_cons.mp hx with hx | hx
        · subst hx
          exact flood_visited_mono conns newId _ _ _ _ x hpv
        · exact ih _ _ _ hcomp x hx
      · rw [if_neg hpv] at hcomp ⊢
        rcases List.mem_cons.mp hx with hx | hx
        · subst hx
          exact flood_visited_mono conns newId _ _ _ _ x
            (List.mem_cons_self _ _)
        · exact ih _ _ _ hcomp x (List.mem_append_right _ hx)

lemma flood_p2n_preserved (conns : List (String × List String))
    (newId : String) :
    ∀ (fuel : Nat) (stack visited : List String)
      (p2n : List (String × String)) (x : String),
      lookupA p2n x = some newId →
      lookupA (flood conns newId fuel stack visited p2n).2.1 x =
        some newId := by
  intro fuel
  induction fuel with
  | zero =>
    intro stack visited p2n x hx
    exact hx
  | succ fuel ih =>
    intro stack visited p2n x hx
    match stack with
    | [] => exact hx
    | p :: rest =>
      simp only [flood]
      by_cases hpv : p ∈ visited
      · rw [if_pos hpv]
        exact ih _ _ _ x hx
      · rw [if_neg hpv]
        apply ih
        by_cases hxp : x = p
        · subst hxp
          exact lookupA_setA_self _ _ _
        · rw [lookupA_setA_ne _ _ _ _ hxp]
          exact hx

lemma flood_visited_assigned (conns : List (String × List String))
    (newId : String) :
    ∀ (fuel : Nat) (stack visited : List String)
      (p2n : List (String × String)) (x : String),
      x ∈ (flood conns newId fuel stack visited p2n).1 →
      x ∈ visited ∨
        lookupA (flood conns newId fuel stack visited p2n).2.1 x =
          some newId := by
  intro fuel
  induction fuel with
  | zero =>
    intro stack visited p2n x hx
    exact Or.inl hx
  | succ fuel ih =>
    intro stack visited p2n x hx
    match stack with
    | [] => exact Or.inl hx
    | p :: rest =>
      simp only [flood] at hx ⊢
      by_cases hpv : p ∈ visited
      · rw [if_pos hpv] at hx ⊢
        exact ih _ _ _ x hx
      · rw [if_neg hpv] at hx ⊢
        rcases ih _ _ _ x hx with hx' | hx'
        · rcases List.mem_cons.mp hx' with hx' | hx'
          · subst hx'
            right
            apply flood_p2n_preserved
            exact lookupA_setA_self _ _ _
          · exact Or.inl hx'
        · exact Or.inr hx'

lemma flood_p2n_some (conns : List (String × List String)) (newId : String) :
    ∀ (fuel : Nat) (stack visited : List String)
      (p2n : List (String × String)) (x v : String),
      lookupA p2n x = some v →
      ∃ w, lookupA (flood conns newId fuel stack visited p2n).2.1 x =
        some w := by
  intro fuel
  induction fuel with
  | zero =>
    intro stack visited p2n x v hx
    exact ⟨v, hx⟩
  | succ fuel ih =>
    intro stack visited p2n x v hx
    match stack with
    | [] => exact ⟨v, hx⟩
    | p :: rest =>
      simp only [flood]
      by_cases hpv : p ∈ visited
      · rw [if_pos hpv]
        exact ih _ _ _ x v hx
      · rw [if_neg hpv]
        by_cases hxp : x = p
        · subst hxp
          exact ih _ _ _ x newId (lookupA_setA_self _ _ _)
        · exact ih _ _ _ x v (by rw [lookupA_setA_ne _ _ _ _ hxp]; exact hx)

lemma mergeNetsW_conns (st : WiringState) (pinA pinB : String) :
    (mergeNetsW st pinA pinB).connections = st.connections := by
  unfold mergeNetsW
  rcases hA : lookupA st.pinToNodeId pinA with _ | na <;>
    rcases hB : lookupA st.pinToNodeId pinB with _ | nb <;>
      simp only
  split <;> rfl

lemma mergeNetsW_merge_spec (st : WiringState) (pinA pinB na nb : String)
    (hA : lookupA st.pinToNodeId pinA = some na)
    (hB : lookupA st.pinToNodeId pinB = some nb) (hne : na ≠ nb) :
    lookupA (mergeNetsW st pinA pinB).pinToNodeId pinA = some na ∧
    ∀ x ∈ nbrs st.connections pinA,
      lookupA (mergeNetsW st pinA pinB).pinToNodeId x = some na := by
  have hfe : mergeNetsW st pinA pinB = { st with pinToNodeId :=
      (flood st.connections na (floodFuel st.connections pinA) [pinA] []
        st.pinToNodeId).2.1 } := by
    unfold mergeNetsW
    rw [hA, hB]
    simp [hne]
  have hstep : flood st.connections na (floodFuel st.connections pinA)
      [pinA] [] st.pinToNodeId =
      flood st.connections na
        ((floodUni st.connections pinA).length *
          (connLen st.connections + 2) + 1)
        (nbrs st.connections pinA ++ []) [pinA]
        (setA st.pinToNodeId pinA na) := by
    show flood st.connections na
      ((floodUni st.connections pinA).length *
        (connLen st.connections + 2) + 1 + 1) [pinA] [] st.pinToNodeId = _
    simp [flood]
  have hcomp : (flood st.connections na (floodFuel st.connections pinA)
      [pinA] [] st.pinToNodeId).2.2 = true := by
    apply flood_completes st.connections na (floodUni st.connections pinA)
      (List.nodup_dedup _) (fun p x hx => mem_nbrs_uni _ _ _ _ hx)
    · intro x hx
      rcases List.mem_cons.mp hx with hx | hx
      · exact hx ▸ start_mem_uni _ _
      · simp at hx
    · unfold floodMeasure floodFuel
      have hflt : ((floodUni st.connections pinA).filter
          fun x => x ∉ ([] : List String)) =
          floodUni st.connections pinA := by
        simp
      rw [hflt]
      simp only [List.length_cons, List.length_nil]
      omega
  rw [hstep] at hcomp
  constructor
  · rw [hfe]
    dsimp only
    rw [hstep]
    apply flood_p2n_preserved
    exact lookupA_setA_self _ _ _
  · intro x hx
    rw [hfe]
    dsimp only
    rw [hstep]
    have hxv : x ∈ (flood st.connections na
        ((floodUni st.connections pinA).length *
          (connLen st.connections + 2) + 1)
        (nbrs st.connections pinA ++ []) [pinA]
        (setA st.pinToNodeId pinA na)).1 :=
      flood_stack_visited _ _ _ _ _ _ hcomp x (List.mem_append_left _ hx)
    rcases flood_visited_assigned _ _ _ _ _ _ x hxv with hx' | hx'
    · have hxa : x = pinA := by simpa using hx'
      subst hxa
      apply flood_p2n_preserved
      exact lookupA_setA_self _ _ _
    · exact hx'

lemma mergeNetsW_skip (st : WiringState) (pinA pinB n : String)
    (hA : lookupA st.pinToNodeId pinA = some n)
    (hB : lookupA st.pinToNodeId pinB = some n) :
    mergeNetsW st pinA pinB = st := by
  unfold mergeNetsW
  rw [hA, hB]
  simp

lemma mergeNetsW_p2n_some (st : WiringState) (pinA pinB x v : String)
    (h : lookupA st.pinToNodeId x = some v) :
    ∃ w, lookupA (mergeNetsW st pinA pinB).pinToNodeId x = some w := by
  unfold mergeNetsW
  rcases hA : lookupA st.pinToNodeId pinA with _ | na <;>
    rcases hB : lookupA st.pinToNodeId pinB with _ | nb <;>
      simp only
  · exact ⟨v, h⟩
  · exact ⟨v, h⟩
  · exact ⟨v, h⟩
  · split
    · exact flood_p2n_some _ _ _ _ _ _ x v h
    · exact ⟨v, h⟩

lemma addConnL_self_mem (conns : List (String × List String))
    (x y : String) : y ∈ nbrs (addConnL conns x y) x := by
  unfold addConnL nbrs
  rw [lookupA_setA_self]
  simp only [Option.getD_some]
  split
  · assumption
  · exact List.mem_append_right _ (by simp)

lemma addConnL_mem_mono (conns : List (String × List String))
    (x y w z : String) (h : z ∈ nbrs conns w) :
    z ∈ nbrs (addConnL conns x y) w := by
  unfold nbrs at h
  unfold addConnL nbrs
  by_cases hw : w = x
  · subst hw
    rw [lookupA_setA_self]
    simp only [Option.getD_some]
    split
    · exact h
    · exact List.mem_append_left _ h
  · rw [lookupA_setA_ne _ _ _ _ hw]
    exact h

lemma addWire_success_state (st : WiringState) (s t color : String)
    (hv : validateWire st s t = none) :
    (addWire st s t color).2.1 = mergeNetsW { st with
      wires := st.wires ++ [⟨st.wireCounter, s, t, color⟩],
      wireCounter := st.wireCounter + 1,
      connections := addConnL (addConnL st.connections s t) t s } s t := by
  unfold addWire
  rw [hv]

lemma addWire_isSome_iff (st : WiringState) (s t color : String) :
    (addWire st s t color).1.isSome ↔ validateWire st s t = none := by
  unfold addWire
  rcases h : validateWire st s t with _ | e <;> simp [h]

lemma addWire_conns (st : WiringState) (s t color : String)
    (hv : validateWire st s t = none) :
    (addWire st s t color).2.1.connections =
      addConnL (addConnL st.connections s t) t s := by
  rw [addWire_success_state st s t color hv, mergeNetsW_conns]

lemma addWire_p2n_some (st : WiringState) (s t color x v : String)
    (hv : validateWire st s t = none)
    (hx : lookupA st.pinToNodeId x = some v) :
    ∃ w, lookupA (addWire st s t color).2.1.pinToNodeId x = some w := by
  rw [addWire_success_state st s t color hv]
  exact mergeNetsW_p2n_some { st with
    wires := st.wires ++ [⟨st.wireCounter, s, t, color⟩],
    wireCounter := st.wireCounter + 1,
    connections := addConnL (addConnL st.connections s t) t s } s t x v hx

lemma addWire_skip (st : WiringState) (s t color n : String)
    (hv : validateWire st s t = none)
    (hs : lookupA st.pinToNodeId s = some n)
    (ht : lookupA st.pinToNodeId t = some n) :
    (addWire st s t color).2.1.pinToNodeId = st.pinToNodeId := by
  rw [addWire_success_state st s t color hv,
    mergeNetsW_skip { st with
      wires := st.wires ++ [⟨st.wireCounter, s, t, color⟩],
      wireCounter := st.wireCounter + 1,
      connections := addConnL (addConnL st.connections s t) t s } s t n
      hs ht]

lemma addWire_merge_start (st : WiringState) (s t color ns nt : String)
    (hv : validateWire st s t = none)
    (hs : lookupA st.pinToNodeId s = some ns)
    (ht : lookupA st.pinToNodeId t = some nt) (hne : ns ≠ nt) :
    lookupA (addWire st s t color).2.1.pinToNodeId s = some ns := by
  rw [addWire_success_state st s t color hv]
  exact (mergeNetsW_merge_spec { st with
    wires := st.wires ++ [⟨st.wireCounter, s, t, color⟩],
    wireCounter := st.wireCounter + 1,
    connections := addConnL (addConnL st.connections s t) t s } s t ns nt
    hs ht hne).1

lemma addWire_merge_assigns (st : WiringState) (s t color ns nt x : String)
    (hv : validateWire st s t = none)
    (hs : lookupA st.pinToNodeId s = some ns)
    (ht : lookupA st.pinToNodeId t = some nt) (hne : ns ≠ nt)
    (hx : x ∈ nbrs (addConnL (addConnL st.connections s t) t s) s) :
    lookupA (addWire st s t color).2.1.pinToNodeId x = some ns := by
  rw [addWire_success_state st s t color hv]
  exact (mergeNetsW_merge_spec { st with
    wires := st.wires ++ [⟨st.wireCounter, s, t, color⟩],
    wireCounter := st.wireCounter + 1,
    connections := addConnL (addConnL st.connections s t) t s } s t ns nt
    hs ht hne).2 x hx

/-- C7: if `a`, `b`, `c` are pins registered to nets and both
`add_wire(a, b)` and `add_wire(b, c)` succeed, then afterwards
`pin_to_net(a) = pin_to_net(c)`. -/
theorem addWire_transitivity (st : WiringState)
    (a b c color1 color2 na nb nc : String)
    (ha : lookupA st.pinToNodeId a = some na)
    (hb : lookupA st.pinToNodeId b = some nb)
    (hc : lookupA st.pinToNodeId c = some nc)
    (h1 : (addWire st a b color1).1.isSome)
    (h2 : (addWire (addWire st a b color1).2.1 b c color2).1.isSome) :
    lookupA (addWire (addWire st a b color1).2.1 b c
        color2).2.1.pinToNodeId a =
      lookupA (addWire (addWire st a b color1).2.1 b c
        color2).2.1.pinToNodeId c := by
  have hv1 := (addWire_isSome_iff st a b color1).mp h1
  have hv2 := (addWire_isSome_iff _ b c color2).mp h2
  -- after the first call, a and b share a net
  have key1 : ∃ n1,
      lookupA (addWire st a b color1).2.1.pinToNodeId a = some n1 ∧
      lookupA (addWire st a b color1).2.1.pinToNodeId b = some n1 := by
    by_cases hab : na = nb
    · subst hab
      rw [addWire_skip st a b color1 na hv1 ha hb]
      exact ⟨na, ha, hb⟩
    · refine ⟨na, addWire_merge_start st a b color1 na nb hv1 ha hb hab, ?_⟩
      apply addWire_merge_assigns st a b color1 na nb b hv1 ha hb hab
      exact addConnL_mem_mono _ _ _ _ _ (addConnL_self_mem _ _ _)
  obtain ⟨n1, h1a, h1b⟩ := key1
  obtain ⟨m, h1c⟩ := addWire_p2n_some st a b color1 c nc hv1 hc
  -- the wire a—b leaves a in b's adjacency set
  have hanb : a ∈ nbrs (addWire st a b color1).2.1.connections b := by
    rw [addWire_conns st a b color1 hv1]
    exact addConnL_self_mem _ _ _
  by_cases h2e : n1 = m
  · subst h2e
    rw [addWire_skip _ b c color2 n1 hv2 h1b h1c, h1a, h1c]
  · have h2a : lookupA (addWire (addWire st a b color1).2.1 b c
        color2).2.1.pinToNodeId a = some n1 := by
      apply addWire_merge_assigns _ b c color2 n1 m a hv2 h1b h1c h2e
      exact addConnL_mem_mono _ _ _ _ _ (addConnL_mem_mono _ _ _ _ _ hanb)
    have h2c : lookupA (addWire (addWire st a b color1).2.1 b c
        color2).2.1.pinToNodeId c = some n1 := by
      apply addWire_merge_assigns _ b c color2 n1 m c hv2 h1b h1c h2e
      exact addConnL_mem_mono _ _ _ _ _ (addConnL_self_mem _ _ _)
    rw [h2a, h2c]

/-- Witness for C7: two fresh wires on a three-pin state. -/
theorem addWire_transitivity_witness :
    (lookupA (WiringState.mk [] [] [("a", "n1"), ("b", "n2"), ("c", "n3")]
        [] 0).pinToNodeId "a" = some "n1" ∧
      lookupA (WiringState.mk [] [] [("a", "n1"), ("b", "n2"), ("c", "n3")]
        [] 0).pinToNodeId "b" = some "n2" ∧
      lookupA (WiringState.mk [] [] [("a", "n1"), ("b", "n2"), ("c", "n3")]
        [] 0).pinToNodeId "c" = some "n3" ∧
      (addWire (WiringState.mk [] [] [("a", "n1"), ("b", "n2"), ("c", "n3")]
        [] 0) "a" "b" "red").1.isSome ∧
      (addWire (addWire (WiringState.mk [] []
        [("a", "n1"), ("b", "n2"), ("c", "n3")] [] 0) "a" "b" "red").2.1
        "b" "c" "red").1.isSome) ∧
    lookupA (addWire (addWire (WiringState.mk [] []
        [("a", "n1"), ("b", "n2"), ("c", "n3")] [] 0) "a" "b" "red").2.1
        "b" "c" "red").2.1.pinToNodeId "a" =
      lookupA (addWire (addWire (WiringState.mk [] []
        [("a", "n1"), ("b", "n2"), ("c", "n3")] [] 0) "a" "b" "red").2.1
        "b" "c" "red").2.1.pinToNodeId "c" :=
  ⟨⟨by decide, by decide, by decide, by decide, by decide⟩,
    addWire_transitivity (WiringState.mk [] []
        [("a", "n1"), ("b", "n2"), ("c", "n3")] [] 0)
      "a" "b" "c" "red" "red" "n1" "n2" "n3"
      (by decide) (by decide) (by decide) (by decide) (by decide)⟩

lemma insertByTime_perm (e : Entry) (l : List Entry) :
    (insertByTime e l).Perm (e :: l) := by
  induction l with
  | nil => simp [insertByTime]
  | cons f fs ih =>
    simp only [insertByTime]
    split
    · exact List.Perm.refl _
    · exact (List.Perm.cons f ih).trans (List.Perm.swap e f fs)

lemma sortByTime_perm (l : List Entry) : (sortByTime l).Perm l := by
  induction l with
  | nil => simp [sortByTime]
  | cons e es ih =>
    exact (insertByTime_perm e (sortByTime es)).trans (List.Perm.cons e ih)

lemma insertTail_perm (x : Entry) (l : List Entry) :
    (insertTail x l).Perm (x :: l) := by
  induction l with
  | nil => simp [insertTail]
  | cons f fs ih =>
    simp only [insertTail]
    split
    · exact List.Perm.refl _
    · exact (List.Perm.cons f ih).trans (List.Perm.swap x f fs)

lemma queueSize_perm (l l' : List Entry) (h : l.Perm l') :
    queueSize l = queueSize l' := by
  unfold queueSize
  exact List.Perm.sum_eq (h.map _)

lemma evtask_size_eq (t : EvTask) : t.size = 1 + sizeSpawns t.spawns := by
  cases t
  rfl

lemma evtask_size_pos (t : EvTask) : 1 ≤ t.size := by
  rw [evtask_size_eq]
  omega

lemma schedule_queueSize (st : Sched) (d : Nat) (t : EvTask) :
    queueSize (schedule st d t).queue = queueSize st.queue + t.size := by
  unfold schedule
  rw [queueSize_perm _ _ (sortByTime_perm _)]
  simp [queueSize]

lemma runSpawns_cons (st : Sched) (p : Nat × EvTask)
    (ps : List (Nat × EvTask)) :
    runSpawns st (p :: ps) = runSpawns (schedule st p.1 p.2) ps := rfl

lemma runSpawns_now (st : Sched) (spawns : List (Nat × EvTask)) :
    (runSpawns st spawns).now = st.now := by
  induction spawns generalizing st with
  | nil => rfl
  | cons p ps ih => rw [runSpawns_cons, ih]; rfl

lemma runSpawns_counter_le (st : Sched) (spawns : List (Nat × EvTask)) :
    st.counter ≤ (runSpawns st spawns).counter := by
  induction spawns generalizing st with
  | nil => exact Nat.le_refl _
  | cons p ps ih =>
    rw [runSpawns_cons]
    exact Nat.le_trans (Nat.le_succ _) (ih (schedule st p.1 p.2))

lemma runSpawns_queueSize (st : Sched) (spawns : List (Nat × EvTask)) :
    queueSize (runSpawns st spawns).queue =
      queueSize st.queue + sizeSpawns spawns := by
  induction spawns generalizing st with
  | nil => simp [runSpawns, sizeSpawns]
  | cons p ps ih =>
    rw [runSpawns_cons, ih, schedule_queueSize]
    simp [sizeSpawns]
    omega

lemma queueSize_cons (e : Entry) (rest : List Entry) :
    queueSize (e :: rest) = e.task.size + queueSize rest := by
  simp [queueSize]

lemma drain_completes : ∀ (fuel : Nat) (st : Sched),
    queueSize st.queue < fuel → (drainF fuel st).2.2 = true := by
  intro fuel
  induction fuel with
  | zero =>
    intro st h
    exact absurd h (Nat.not_lt_zero _)
  | succ fuel ih =>
    intro st h
    rcases hq : st.queue with _ | ⟨e, rest⟩
    · simp [drainF, hq]
    · simp only [drainF, hq]
      split
      · apply ih
        rw [runSpawns_queueSize]
        have hs := evtask_size_eq e.task
        rw [hq, queueSize_cons] at h
        simp only
        omega
      · rfl

lemma entLex_le (e f : Entry) (h : entLex e f) : e.time ≤ f.time := by
  rcases h with h | ⟨h, _⟩ <;> omega

lemma insertByTime_le_head (f : Entry) (l : List Entry)
    (h : ∀ g ∈ l, f.time ≤ g.time) : insertByTime f l = f :: l := by
  cases l with
  | nil => rfl
  | cons g gs =>
    simp only [insertByTime]
    rw [if_pos (h g (List.mem_cons_self _ _))]

lemma insertTail_le_all (x : Entry) (l : List Entry)
    (h : ∀ g ∈ l, x.time < g.time) : insertTail x l = x :: l := by
  cases l with
  | nil => rfl
  | cons g gs =>
    simp only [insertTail]
    rw [if_pos (h g (List.mem_cons_self _ _))]

lemma sortByTime_sorted_append (q : List Entry) (x : Entry)
    (hq : q.Pairwise fun a b => a.time ≤ b.time) :
    sortByTime (q ++ [x]) = insertTail x q := by
  induction q with
  | nil => rfl
  | cons f q' ih =>
    rw [List.pairwise_cons] at hq
    obtain ⟨hf, hq'⟩ := hq
    show insertByTime f (sortByTime (q' ++ [x])) = insertTail x (f :: q')
    rw [ih hq']
    by_cases hxf : x.time < f.time
    · have h1 : insertTail x q' = x :: q' :=
        insertTail_le_all x q' fun g hg => lt_of_lt_of_le hxf (hf g hg)
      rw [h1]
      simp only [insertTail]
      rw [if_pos hxf]
      simp only [insertByTime]
      rw [if_neg (by omega)]
      rw [insertByTime_le_head f q' hf]
    · simp only [insertTail]
      rw [if_neg hxf]
      apply insertByTime_le_head
      intro g hg
      rcases List.mem_cons.mp ((insertTail_perm x q').mem_iff.mp hg) with
        hg' | hg'
      · subst hg'
        omega
      · exact hf g hg'

lemma insertTail_pairwise (x : Entry) (q : List Entry)
    (hq : q.Pairwise entLex) (hseq : ∀ e ∈ q, e.seq < x.seq) :
    (insertTail x q).Pairwise entLex := by
  induction q with
  | nil => simp [insertTail]
  | cons f q' ih =>
    rw [List.pairwise_cons] at hq
    obtain ⟨hf, hq'⟩ := hq
    simp only [insertTail]
    split
    · rename_i hxf
      refine List.Pairwise.cons ?_ (List.Pairwise.cons hf hq')
      intro g hg
      rcases List.mem_cons.mp hg with hg' | hg'
      · subst hg'
        exact Or.inl hxf
      · exact Or.inl (lt_of_lt_of_le hxf (entLex_le f g (hf g hg')))
    · rename_i hxf
      refine List.Pairwise.cons ?_
        (ih hq' fun e he => hseq e (List.mem_cons_of_mem _ he))
      intro g hg
      rcases List.mem_cons.mp ((insertTail_perm x q').mem_iff.mp hg) with
        hg' | hg'
      · rw [hg']
        rcases Nat.lt_or_ge f.time x.time with h | h
        · exact Or.inl h
        · exact Or.inr ⟨by omega, hseq f (List.mem_cons_self _ _)⟩
      · exact hf g hg'

lemma schedule_queue_eq (st : Sched) (d : Nat) (t : EvTask)
    (hq : st.queue.Pairwise entLex) :
    (schedule st d t).queue =
      insertTail ⟨st.now + d, st.counter, t⟩ st.queue := by
  unfold schedule
  exact sortByTime_sorted_append _ _ (hq.imp fun h => entLex_le _ _ h)

lemma mem_schedule (st : Sched) (d : Nat) (t : EvTask) (e : Entry)
    (he : e ∈ st.queue) : e ∈ (schedule st d t).queue := by
  unfold schedule
  rw [(sortByTime_perm _).mem_iff]
  exact List.mem_append_left _ he

lemma mem_schedule_src (st : Sched) (d : Nat) (t : EvTask) (e : Entry)
    (he : e ∈ (schedule st d t).queue) :
    e ∈ st.queue ∨
      (e.seq = st.counter ∧ e.time = st.now + d ∧ e.task = t) := by
  unfold schedule at he
  rw [(sortByTime_perm _).mem_iff] at he
  rcases List.mem_append.mp he with he | he
  · exact Or.inl he
  · right
    simp only [List.mem_singleton] at he
    subst he
    exact ⟨rfl, rfl, rfl⟩

lemma schedule_inv (st : Sched) (d : Nat) (t : EvTask) (h : SchedInv st) :
    SchedInv (schedule st d t) := by
  obtain ⟨hp, hs⟩ := h
  constructor
  · rw [schedule_queue_eq st d t hp]
    exact insertTail_pairwise _ _ hp hs
  · intro e he
    rcases mem_schedule_src st d t e he with he' | he'
    · exact Nat.lt_trans (hs e he') (Nat.lt_succ_self _)
    · rw [he'.1]
      exact Nat.lt_succ_self _

lemma runSpawns_inv (st : Sched) (spawns : List (Nat × EvTask))
    (h : SchedInv st) : SchedInv (runSpawns st spawns) := by
  induction spawns generalizing st with
  | nil => exact h
  | cons p ps ih =>
    rw [runSpawns_cons]
    exact ih _ (schedule_inv st p.1 p.2 h)

lemma mem_runSpawns (st : Sched) (spawns : List (Nat × EvTask)) (e : Entry)
    (he : e ∈ st.queue) : e ∈ (runSpawns st spawns).queue := by
  induction spawns generalizing st with
  | nil => exact he
  | cons p ps ih =>
    rw [runSpawns_cons]
    exact ih _ (mem_schedule st p.1 p.2 e he)

lemma mem_runSpawns_src (st : Sched) (spawns : List (Nat × EvTask))
    (e : Entry) (he : e ∈ (runSpawns st spawns).queue) :
    e ∈ st.queue ∨ (st.counter ≤ e.seq ∧ st.now ≤ e.time) := by
  induction spawns generalizing st with
  | nil => exact Or.inl he
  | cons p ps ih =>
    rw [runSpawns_cons] at he
    rcases ih _ he with he' | he'
    · rcases mem_schedule_src st p.1 p.2 e he' with he'' | he''
      · exact Or.inl he''
      · exact Or.inr ⟨Nat.le_of_eq he''.1.symm, by omega⟩
    · refine Or.inr ⟨?_, ?_⟩
      · have : st.counter ≤ (schedule st p.1 p.2).counter := Nat.le_succ _
        omega
      · have : (schedule st p.1 p.2).now = st.now := rfl
        omega

lemma runSpawns_spawn_mem (st : Sched) (spawns : List (Nat × EvTask)) :
    ∀ p ∈ spawns, ∃ en ∈ (runSpawns st spawns).queue,
      en.time = st.now + p.1 ∧ en.task = p.2 := by
  induction spawns generalizing st with
  | nil => intro p hp; simp at hp
  | cons q ps ih =>
    intro p hp
    rcases List.mem_cons.mp hp with hp' | hp'
    · subst hp'
      refine ⟨⟨st.now + p.1, st.counter, p.2⟩, ?_, rfl, rfl⟩
      rw [runSpawns_cons]
      apply mem_runSpawns
      unfold schedule
      rw [(sortByTime_perm _).mem_iff]
      exact List.mem_append_right _ (by simp)
    · rw [runSpawns_cons]
      have := ih (schedule st q.1 q.2) p hp'
      simpa using this

lemma drain_executed_ripe : ∀ (fuel : Nat) (st : Sched),
    ∀ e ∈ (drainF fuel st).1, e.time ≤ st.now := by
  intro fuel
  induction fuel with
  | zero =>
    intro st e he
    simp [drainF] at he
  | succ fuel ih =>
    intro st e he
    rcases hq : st.queue with _ | ⟨f, rest⟩
    · simp [drainF, hq] at he
    · simp only [drainF, hq] at he
      by_cases hrf : f.time ≤ st.now
      · rw [if_pos hrf] at he
        simp only [List.mem_cons] at he
        rcases he with he | he
        · subst he
          exact hrf
        · have := ih (runSpawns { st with queue := rest } f.task.spawns) e he
          rwa [runSpawns_now] at this
      · rw [if_neg hrf] at he
        simp at he

lemma drain_executed_src : ∀ (fuel : Nat) (st : Sched), SchedInv st →
    ∀ e ∈ (drainF fuel st).1,
      e ∈ st.queue ∨ (st.counter ≤ e.seq ∧ st.now ≤ e.time) := by
  intro fuel
  induction fuel with
  | zero =>
    intro st _ e he
    simp [drainF] at he
  | succ fuel ih =>
    intro st hinv e he
    rcases hq : st.queue with _ | ⟨f, rest⟩
    · simp [drainF, hq] at he
    · simp only [drainF, hq] at he
      by_cases hrf : f.time ≤ st.now
      · rw [if_pos hrf] at he
        simp only [List.mem_cons] at he
        rcases he with he | he
        · subst he
          exact Or.inl (List.mem_cons_self _ _)
        · have hinvr : SchedInv { st with queue := rest } := by
            obtain ⟨hp, hs⟩ := hinv
            rw [hq] at hp hs
            exact ⟨(List.pairwise_cons.mp hp).2,
              fun g hg => hs g (List.mem_cons_of_mem _ hg)⟩
          have hinv' := runSpawns_inv _ f.task.spawns hinvr
          rcases ih _ hinv' e he with he' | he'
          · rcases mem_runSpawns_src _ _ _ he' with he'' | he''
            · exact Or.inl (hq ▸ List.mem_cons_of_mem _ he'')
            · right
              have hn := runSpawns_now { st with queue := rest }
                f.task.spawns
              exact ⟨he''.1, he''.2⟩
          · right
            have hc := runSpawns_counter_le { st with queue := rest }
              f.task.spawns
            have hn := runSpawns_now { st with queue := rest } f.task.spawns
            constructor
            · have : st.counter ≤
                  (runSpawns { st with queue := rest } f.task.spawns).counter :=
                hc
              omega
            · rw [hn] at he'
              exact he'.2
      · rw [if_neg hrf] at he
        simp at he

lemma drain_complete : ∀ (fuel : Nat) (st : Sched), SchedInv st →
    queueSize st.queue < fuel →
    ∀ e ∈ st.queue, e.time ≤ st.now → e ∈ (drainF fuel st).1 := by
  intro fuel
  induction fuel with
  | zero =>
    intro st _ h
    exact absurd h (Nat.not_lt_zero _)
  | succ fuel ih =>
    intro st hinv hsz e he hripe
    rcases hq : st.queue with _ | ⟨f, rest⟩
    · rw [hq] at he
      simp at he
    · rw [hq] at he
      simp only [drainF, hq]
      by_cases hrf : f.time ≤ st.now
      · rw [if_pos hrf]
        simp only [List.mem_cons]
        rcases List.mem_cons.mp he with he' | he'
        · exact Or.inl he'
        · right
          have hinvr : SchedInv { st with queue := rest } := by
            obtain ⟨hp, hs⟩ := hinv
            rw [hq] at hp hs
            exact ⟨(List.pairwise_cons.mp hp).2,
              fun g hg => hs g (List.mem_cons_of_mem _ hg)⟩
          have hinv' := runSpawns_inv _ f.task.spawns hinvr
          apply ih _ hinv'
          · rw [runSpawns_queueSize]
            have hs := evtask_size_eq f.task
            rw [hq, queueSize_cons] at hsz
            simp only
            omega
          · exact mem_runSpawns _ _ _ he'
          · rw [runSpawns_now]
            exact hripe
      · exfalso
        rcases List.mem_cons.mp he with he' | he'
        · subst he'
          exact hrf hripe
        · obtain ⟨hp, _⟩ := hinv
          rw [hq] at hp
          have := (List.pairwise_cons.mp hp).1 e he'
          have := entLex_le f e this
          omega

lemma drain_pairwise : ∀ (fuel : Nat) (st : Sched), SchedInv st →
    (drainF fuel st).1.Pairwise entLex := by
  intro fuel
  induction fuel with
  | zero =>
    intro st _
    simp [drainF]
  | succ fuel ih =>
    intro st hinv
    rcases hq : st.queue with _ | ⟨f, rest⟩
    · simp [drainF, hq]
    · simp only [drainF, hq]
      by_cases hrf : f.time ≤ st.now
      · rw [if_pos hrf]
        have hinvr : SchedInv { st with queue := rest } := by
          obtain ⟨hp, hs⟩ := hinv
          rw [hq] at hp hs
          exact ⟨(List.pairwise_cons.mp hp).2,
            fun g hg => hs g (List.mem_cons_of_mem _ hg)⟩
        have hinv' := runSpawns_inv _ f.task.spawns hinvr
        refine List.Pairwise.cons ?_ (ih _ hinv')
        intro g hg
        have hgsrc := drain_executed_src fuel _ hinv' g hg
        have hfseq : f.seq < st.counter := by
          obtain ⟨_, hs⟩ := hinv
          exact hs f (hq ▸ List.mem_cons_self _ _)
        have hn := runSpawns_now { st with queue := rest } f.task.spawns
        have hc := runSpawns_counter_le { st with queue := rest }
          f.task.spawns
        simp only at hn hc
        rcases hgsrc with hg' | hg'
        · rcases mem_runSpawns_src _ _ _ hg' with hg'' | hg''
          · obtain ⟨hp, _⟩ := hinv
            rw [hq] at hp
            exact (List.pairwise_cons.mp hp).1 g hg''
          · simp only at hg''
            rcases Nat.lt_or_ge f.time g.time with h | h
            · exact Or.inl h
            · exact Or.inr ⟨by omega, by omega⟩
        · rw [hn] at hg'
          rcases Nat.lt_or_ge f.time g.time with h | h
          · exact Or.inl h
          · exact Or.inr ⟨by omega, by omega⟩
      · rw [if_neg hrf]
        simp

lemma drain_spawn : ∀ (fuel : Nat) (st : Sched), SchedInv st →
    queueSize st.queue < fuel →
    ∀ e ∈ (drainF fuel st).1, ∀ p ∈ e.task.spawns, p.1 = 0 →
      ∃ f ∈ (drainF fuel st).1, f.task = p.2 ∧ f.time = st.now := by
  intro fuel
  induction fuel with
  | zero =>
    intro st _ h
    exact absurd h (Nat.not_lt_zero _)
  | succ fuel ih =>
    intro st hinv hsz e he p hp hp0
    rcases hq : st.queue with _ | ⟨f, rest⟩
    · simp [drainF, hq] at he
    · simp only [drainF, hq] at he ⊢
      by_cases hrf : f.time ≤ st.now
      · rw [if_pos hrf] at he ⊢
        have hinvr : SchedInv { st with queue := rest } := by
          obtain ⟨hp', hs⟩ := hinv
          rw [hq] at hp' hs
          exact ⟨(List.pairwise_cons.mp hp').2,
            fun g hg => hs g (List.mem_cons_of_mem _ hg)⟩
        have hinv' := runSpawns_inv _ f.task.spawns hinvr
        have hsz' : queueSize (runSpawns { st with queue := rest }
            f.task.spawns).queue < fuel := by
          rw [runSpawns_queueSize]
          have hs := evtask_size_eq f.task
          rw [hq, queueSize_cons] at hsz
          simp only
          omega
        simp only [List.mem_cons] at he
        rcases he with he | he
        · subst he
          obtain ⟨en, hen, hent, hentask⟩ :=
            runSpawns_spawn_mem { st with queue := rest } e.task.spawns p hp
          have hripe : en.time ≤ (runSpawns { st with queue := rest }
              e.task.spawns).now := by
            rw [runSpawns_now]
            simp only at hent ⊢
            omega
          have hmem := drain_complete fuel _ hinv' hsz' en hen hripe
          refine ⟨en, List.mem_cons_of_mem _ hmem, hentask, ?_⟩
          simp only at hent
          omega
        · obtain ⟨g, hg, hgt, hgtime⟩ := ih _ hinv' hsz' e he p hp hp0
          rw [runSpawns_now] at hgtime
          exact ⟨g, List.mem_cons_of_mem _ hg, hgt, hgtime⟩
      · rw [if_neg hrf] at he
        simp at he

/-- C8: for any schedule history that respects the queue invariant,
`step(dt)` executes every queued task whose time is at most the advanced
current time; the executed sequence is nondecreasing in time; entries with
equal scheduled times execute in insertion (`seq`) order — FIFO within a
timestamp; and a task enqueued during the drain at a ripe time (delay 0) is
also executed within the same step. -/
theorem scheduler_step_order (st : Sched) (dt : Nat) (hinv : SchedInv st) :
    (∀ e ∈ st.queue, e.time ≤ st.now + dt → e ∈ (step st dt).1) ∧
    ((step st dt).1.Pairwise fun a b => a.time ≤ b.time) ∧
    (∀ e1 e2, e1 ∈ st.queue → e2 ∈ st.queue →
      e1.time ≤ st.now + dt → e2.time ≤ st.now + dt →
      e1.time = e2.time → e1.seq < e2.seq →
      ∀ i j, (step st dt).1.get? i = some e1 →
        (step st dt).1.get? j = some e2 → i < j) ∧
    (∀ e ∈ (step st dt).1, ∀ p ∈ e.task.spawns, p.1 = 0 →
      ∃ f ∈ (step st dt).1, f.task = p.2 ∧ f.time = st.now + dt) := by
  have hinv' : SchedInv { st with now := st.now + dt } := hinv
  have hsz : queueSize ({ st with now := st.now + dt } : Sched).queue <
      queueSize st.queue + 1 := Nat.lt_succ_self _
  refine ⟨?_, ?_, ?_, ?_⟩
  · intro e he hripe
    exact drain_complete (queueSize st.queue + 1) _ hinv' hsz e he hripe
  · exact (drain_pairwise (queueSize st.queue + 1) _ hinv').imp
      fun h => entLex_le _ _ h
  · intro e1 e2 h1q h2q h1r h2r hteq hseq i j hi hj
    have hpw : (step st dt).1.Pairwise entLex :=
      drain_pairwise (queueSize st.queue + 1)
        { st with now := st.now + dt } hinv'
    rcases Nat.lt_trichotomy i j with h | h | h
    · exact h
    · exfalso
      subst h
      rw [hi] at hj
      have : e1 = e2 := by injection hj
      rw [this] at hseq
      omega
    · exfalso
      obtain ⟨hjlen, hjget⟩ := List.get?_eq_some.mp hj
      obtain ⟨hilen, higet⟩ := List.get?_eq_some.mp hi
      have hlex := List.pairwise_iff_get.mp hpw ⟨j, hjlen⟩ ⟨i, hilen⟩ h
      rw [hjget, higet] at hlex
      rcases hlex with hlex | hlex
      · omega
      · omega
  · intro e he p hp hp0
    have := drain_spawn (queueSize st.queue + 1) _ hinv' hsz e he p hp hp0
    simpa using this

/-- Witness for C8: two equal-time entries and a ripe queue at a concrete
step. -/
theorem scheduler_step_order_witness :
    SchedInv (Sched.mk [⟨5, 0, EvTask.mk 1 []⟩, ⟨5, 1, EvTask.mk 2 []⟩] 0 2) ∧
    ((∀ e ∈ (Sched.mk [⟨5, 0, EvTask.mk 1 []⟩, ⟨5, 1, EvTask.mk 2 []⟩]
        0 2).queue,
      e.time ≤ (Sched.mk [⟨5, 0, EvTask.mk 1 []⟩, ⟨5, 1, EvTask.mk 2 []⟩]
        0 2).now + 10 →
      e ∈ (step (Sched.mk [⟨5, 0, EvTask.mk 1 []⟩, ⟨5, 1, EvTask.mk 2 []⟩]
        0 2) 10).1) ∧
    ((step (Sched.mk [⟨5, 0, EvTask.mk 1 []⟩, ⟨5, 1, EvTask.mk 2 []⟩]
        0 2) 10).1.Pairwise fun a b => a.time ≤ b.time) ∧
    (∀ e1 e2,
      e1 ∈ (Sched.mk [⟨5, 0, EvTask.mk 1 []⟩, ⟨5, 1, EvTask.mk 2 []⟩]
        0 2).queue →
      e2 ∈ (Sched.mk [⟨5, 0, EvTask.mk 1 []⟩, ⟨5, 1, EvTask.mk 2 []⟩]
        0 2).queue →
      e1.time ≤ (Sched.mk [⟨5, 0, EvTask.mk 1 []⟩, ⟨5, 1, EvTask.mk 2 []⟩]
        0 2).now + 10 →
      e2.time ≤ (Sched.mk [⟨5, 0, EvTask.mk 1 []⟩, ⟨5, 1, EvTask.mk 2 []⟩]
        0 2).now + 10 →
      e1.time = e2.time → e1.seq < e2.seq →
      ∀ i j, (step (Sched.mk [⟨5, 0, EvTask.mk 1 []⟩,
          ⟨5, 1, EvTask.mk 2 []⟩] 0 2) 10).1.get? i = some e1 →
        (step (Sched.mk [⟨5, 0, EvTask.mk 1 []⟩,
          ⟨5, 1, EvTask.mk 2 []⟩] 0 2) 10).1.get? j = some e2 → i < j) ∧
    (∀ e ∈ (step (Sched.mk [⟨5, 0, EvTask.mk 1 []⟩,
        ⟨5, 1, EvTask.mk 2 []⟩] 0 2) 10).1,
      ∀ p ∈ e.task.spawns, p.1 = 0 →
      ∃ f ∈ (step (Sched.mk [⟨5, 0, EvTask.mk 1 []⟩,
        ⟨5, 1, EvTask.mk 2 []⟩] 0 2) 10).1,
        f.task = p.2 ∧ f.time = (Sched.mk [⟨5, 0, EvTask.mk 1 []⟩,
          ⟨5, 1, EvTask.mk 2 []⟩] 0 2).now + 10)) :=
  ⟨⟨by simp [entLex], by simp⟩,
    scheduler_step_order
      (Sched.mk [⟨5, 0, EvTask.mk 1 []⟩, ⟨5, 1, EvTask.mk 2 []⟩] 0 2) 10
      ⟨by simp [entLex], by simp⟩⟩
